import Mathlib

/-!
Verification of the core of the `dista-flow` train-simulation program.

The Python modules under `src/` are shallowly embedded here, generically over
a linear ordered field `K` (instantiated with `ℚ` for executable witnesses and
with `ℝ` where the code uses `math.sqrt` / `** 0.5`):

* `src/model.py`   — `Segment`, `Line`, `Line.speed_limit`
  (`Line.next_speed_change` is called by the controllers but is defined
  nowhere in the repository; it is modelled from the spec, see below);
* `src/braking.py` — `BrakeType`, `RailCondition`, `TrainBrakingCharacteristics`
  with its construction-time validation, `calculate_max_deceleration`,
  `calculate_braking_distance`, `calculate_service_brake_curve`;
* `src/train.py`   — `TrainState` with its clamping constructor and `step`;
* `src/controllers.py` — `braking_distance` (Python returns `float('inf')`
  when `a_eff <= 0`; modelled with `WithTop`), `EtcsBaseline`,
  `DistaAI_Simple`;
* `src/metrics.py` — `compute_headways`;
* `src/sim.py`     — `run_sim`: the per-tick round-robin over the trains of a
  `simpy` environment is embedded as a sequential fold over the train list,
  one fold per tick, which is exactly the order the equal-delay timeouts are
  served in.  The trace record carries one ghost field `leader` (the id the
  leader search picked that tick) so that statements about leader selection
  can be made; it does not influence the dynamics.
-/

namespace DistaFlow

/-- A track segment (src/model.py, `Segment`).  `frm`/`to`/`tracks`/
`signalling` are informational; `length_m` and `speed_mps` drive the model. -/
structure Segment (K : Type) where
  frm : String
  toLabel : String  -- `to` in the Python source; `to` is a Lean keyword
  length_m : K
  speed_mps : K
  tracks : ℕ
  signalling : String
deriving DecidableEq

/-- The track (src/model.py, `Line`).  The Python constructor builds the
segment list from a dataframe; positions are answered from the cumulative
lengths.  `Line.speed_limit` indexes `segments[-1]`, so a track has at least
one segment (an empty dataframe would make the Python code raise). -/
structure Line (K : Type) where
  segments : List (Segment K)
  nonempty : segments ≠ []

variable {K : Type} [LinearOrderedField K]

/-- Total length of a list of segments (metres). -/
def sumLen (ss : List (Segment K)) : K :=
  (ss.map Segment.length_m).sum

/-- `self.total_m = self.cum[-1]` of src/model.py: the sum of all segment
lengths. -/
def Line.total_m (l : Line K) : K :=
  sumLen l.segments

/-- The scan of `Line.speed_limit` (src/model.py lines 48-50): walking the
segments with the running cumulative offset `c`, return the limit of the
first segment whose half-open interval `[c, c + length)` contains `p`. -/
def speedScan (p : K) : K → List (Segment K) → Option K
  | _, [] => none
  | c, s :: rest =>
    if c ≤ p ∧ p < c + s.length_m then some s.speed_mps
    else speedScan p (c + s.length_m) rest

/-- `Line.speed_limit` (src/model.py lines 46-51): the limit of the segment
containing `pos_m`, the last segment's limit when the scan finds none. -/
def Line.speed_limit (l : Line K) (p : K) : K :=
  (speedScan p 0 l.segments).getD (l.segments.getLast l.nonempty).speed_mps

/-- Modelled from the spec: the forward scan of `Line.next_speed_change`.
Walking the segments after the containing one with the running offset `c` of
each segment's start, return distance-to-start and limit of the first
segment strictly slower than `vcur`; the sentinel `(none, vcur)` stands for
the spec's "infinite distance, current limit" when no slower segment exists. -/
def nscScan (p vcur : K) : K → List (Segment K) → Option K × K
  | _, [] => (none, vcur)
  | c, s :: rest =>
    if s.speed_mps < vcur then (some (c - p), s.speed_mps)
    else nscScan p vcur (c + s.length_m) rest

/-- Modelled from the spec: locate the segment containing `p` (same interval
test as `speedScan`) and hand over to the forward scan `nscScan`. -/
def nscFind (p : K) : K → List (Segment K) → Option (Option K × K)
  | _, [] => none
  | c, s :: rest =>
    if c ≤ p ∧ p < c + s.length_m then
      some (nscScan p s.speed_mps (c + s.length_m) rest)
    else nscFind p (c + s.length_m) rest

/-- Modelled from the spec: `Line.next_speed_change(pos)` is called by both
controllers (src/controllers.py lines 53 and 94) but is defined nowhere in
the repository; this definition follows the spec's contract (§4.1): scan
forward from the containing segment for the next segment whose limit is
lower than the current one and return (distance from `pos` to that segment's
start, its limit), or the "infinite distance, current limit" sentinel —
encoded `(none, current limit)` — when no such segment exists. -/
def Line.next_speed_change (l : Line K) (p : K) : Option K × K :=
  (nscFind p 0 l.segments).getD (none, l.speed_limit p)

/-! ## src/braking.py -/

/-- UIC brake kinds (src/braking.py, `BrakeType`). -/
inductive BrakeType where
  | P
  | G
deriving DecidableEq

/-- Rail adhesion states (src/braking.py, `RailCondition`). -/
inductive RailCondition where
  | DRY
  | WET
  | SLIPPERY
  | ICY
deriving DecidableEq

/-- `ADHESION_COEFFICIENTS` of src/braking.py: μ per rail condition. -/
def adhesionCoefficient : RailCondition → K
  | .DRY => 33 / 100
  | .WET => 25 / 100
  | .SLIPPERY => 15 / 100
  | .ICY => 8 / 100

/-- `BRAKE_RESPONSE_TIMES` of src/braking.py (UIC 544-1): P-brake 3.5 s,
G-brake 8.0 s. -/
def brakeResponseTime : BrakeType → K
  | .P => 7 / 2
  | .G => 8

/-- Gravitational acceleration `G = 9.81` of src/braking.py. -/
def gAccel : K := 981 / 100

/-- `EP_BRAKE_TIME_REDUCTION = 1.5` of src/braking.py. -/
def epBrakeTimeReduction : K := 3 / 2

/-- Braking characteristics of a train (src/braking.py,
`TrainBrakingCharacteristics`). -/
structure TrainBrakingCharacteristics (K : Type) where
  train_type : String
  mass_tons : K
  length_m : K
  brake_type : BrakeType
  brake_percentage : K
  has_ep_brake : Bool
  max_speed_kmh : K
  adhesion_factor : K
deriving DecidableEq

/-- The dataclass constructor together with `__post_init__` of
`TrainBrakingCharacteristics` (src/braking.py lines 54-60): brake
percentage outside `[0, 200]` or mass `≤ 0` raise `ValueError` (embedded as
`Except.error`; Python's messages interpolate the offending value, elided
here). -/
def mkTrainBrakingCharacteristics (train_type : String) (mass_tons len : K)
    (brake_type : BrakeType) (brake_percentage : K) (has_ep_brake : Bool)
    (max_speed_kmh adhesion_factor : K) :
    Except String (TrainBrakingCharacteristics K) :=
  if brake_percentage < 0 ∨ 200 < brake_percentage then
    .error "Invalid brake percentage"
  else if mass_tons ≤ 0 then
    .error "Invalid train mass"
  else
    .ok ⟨train_type, mass_tons, len, brake_type, brake_percentage,
      has_ep_brake, max_speed_kmh, adhesion_factor⟩

/-- `BrakingCalculator.calculate_max_deceleration` (src/braking.py lines
87-132): adhesion-limited deceleration plus gradient effect, floored at
0.1 m/s². -/
def calculate_max_deceleration (ch : TrainBrakingCharacteristics K)
    (rc : RailCondition) (gradient_promille : K) : K :=
  let mu : K := adhesionCoefficient rc
  let brake_ratio_value : K := ch.brake_percentage / 100
  let a_brake_theoretical : K :=
    brake_ratio_value * mu * gAccel * ch.adhesion_factor
  let a_adhesion_limit : K := mu * gAccel
  let a_brake : K := min a_brake_theoretical a_adhesion_limit
  let gradient_effect : K := gradient_promille / 1000 * gAccel
  max (1 / 10) (a_brake + gradient_effect)

/-- `BrakingCalculator.calculate_braking_distance` (src/braking.py lines
134-187): returns `(0, 0)` when no braking is needed, otherwise reaction
distance plus kinematic braking distance and the matching times. -/
def calculate_braking_distance (v_initial_kmh v_final_kmh : K)
    (ch : TrainBrakingCharacteristics K) (rc : RailCondition)
    (gradient_promille : K) (include_reaction_time : Bool) : K × K :=
  let v0 : K := v_initial_kmh / (36 / 10)
  let vf : K := v_final_kmh / (36 / 10)
  if v0 ≤ vf then (0, 0)
  else
    let a_max : K := calculate_max_deceleration ch rc gradient_promille
    let t_response : K :=
      if include_reaction_time then
        brakeResponseTime ch.brake_type -
          (if ch.has_ep_brake then epBrakeTimeReduction else 0)
      else 0
    let s_reaction : K := if include_reaction_time then v0 * t_response else 0
    let s_brake : K := (vf ^ 2 - v0 ^ 2) / (2 * (-a_max))
    let t_brake : K := (vf - v0) / (-a_max)
    (s_reaction + s_brake, t_response + t_brake)

/-- `BrakingCalculator.calculate_service_brake_curve` (src/braking.py lines
189-211): 65 % of the maximal deceleration, a further 10 % off above
120 km/h. -/
def calculate_service_brake_curve (v_kmh : K)
    (ch : TrainBrakingCharacteristics K) (rc : RailCondition) : K :=
  let a_max : K := calculate_max_deceleration ch rc 0
  let service_brake_factor : K :=
    if 120 < v_kmh then 65 / 100 * (9 / 10) else 65 / 100
  a_max * service_brake_factor

/-! ## src/train.py -/

/-- Per-train kinematic state (src/train.py, `TrainState`).  Train ids are
embedded as naturals (the Python code only compares them for equality and
uses them as dictionary keys). -/
structure TrainState (K : Type) where
  id : ℕ
  pos_m : K
  vel : K
  length_m : K
  a_max : K
  a_brake : K
  use_realistic_braking : Bool
  braking_char : Option (TrainBrakingCharacteristics K)
  rail_condition : RailCondition
deriving DecidableEq

/-- `TrainState.__init__` (src/train.py lines 11-49): clamps rather than
rejects — position and velocity to `≥ 0`, length to `≥ 1`, the acceleration
limit to `≥ 0.01`; with braking characteristics the brake limit comes from
the service-brake curve at the clamped velocity, otherwise it is clamped to
`≥ 0.01`. -/
def mkTrainState (id : ℕ) (pos_m vel length_m a_max a_brake : K)
    (braking_characteristics : Option (TrainBrakingCharacteristics K))
    (rail_condition : RailCondition) : TrainState K :=
  match braking_characteristics with
  | some ch =>
    { id := id
      pos_m := max 0 pos_m
      vel := max 0 vel
      length_m := max 1 length_m
      a_max := max (1 / 100) a_max
      a_brake :=
        calculate_service_brake_curve (max 0 vel * (36 / 10)) ch rail_condition
      use_realistic_braking := true
      braking_char := some ch
      rail_condition := rail_condition }
  | none =>
    { id := id
      pos_m := max 0 pos_m
      vel := max 0 vel
      length_m := max 1 length_m
      a_max := max (1 / 100) a_max
      a_brake := max (1 / 100) a_brake
      use_realistic_braking := false
      braking_char := none
      rail_condition := rail_condition }

/-- `TrainState.step` (src/train.py lines 51-83), one Euler step: clamp the
target to `[0, speed_limit(pos)]` at the **pre-step** position, refresh the
brake limit when realistic braking is on, move the velocity toward the
target within the acceleration/brake limits, clamp it to `≥ 0`, advance the
position and clamp it to the end of the line. -/
def TrainState.step (me : TrainState K) (dt v_target : K) (line : Line K) :
    TrainState K :=
  let vt0 : K := max 0 v_target
  let vmax : K := line.speed_limit me.pos_m
  let vt : K := min vt0 vmax
  let ab : K :=
    match me.braking_char, me.use_realistic_braking with
    | some ch, true =>
      calculate_service_brake_curve (me.vel * (36 / 10)) ch me.rail_condition
    | _, _ => me.a_brake
  let v1 : K :=
    if me.vel < vt then min vt (me.vel + me.a_max * dt)
    else max vt (me.vel - ab * dt)
  let v2 : K := max 0 v1
  let p1 : K := me.pos_m + v2 * dt
  let p2 : K := min p1 line.total_m
  { me with pos_m := p2, vel := v2, a_brake := ab }

/-! ## src/controllers.py -/

/-- The value of `braking_distance` (src/controllers.py lines 3-7) on the
branch `a_eff > 0`: `v²/(2·max(a_eff, 1e-6))`. -/
def braking_distance_fin (v a_eff : K) : K :=
  v * v / (2 * max a_eff (1 / 1000000))

/-- `braking_distance` (src/controllers.py lines 3-7).  Python returns
`float('inf')` when `a_eff ≤ 0`; the infinity is embedded as `⊤` in
`WithTop K`. -/
def braking_distance (v a_eff : K) : WithTop K :=
  if a_eff ≤ 0 then ⊤ else (braking_distance_fin v a_eff : K)

/-- The anticipatory speed-limit lookahead block that opens
`EtcsBaseline.desired_speed` (src/controllers.py lines 49-68) and is
repeated verbatim in `DistaAI_Simple.desired_speed` (lines 91-108): lower
the current limit when a slower segment is close enough ahead.  Two float
corner cases are embedded explicitly: the sentinel "infinite distance"
(`none`) makes Python's `dist_to_change <= needed_dist + margin` comparison
false, and `a_brake ≤ 0` makes `needed_dist = inf - inf = nan`, whose
comparisons are also false — both skip the block. -/
noncomputable def lookahead_vlim (margin : ℝ) (me : TrainState ℝ)
    (line : Line ℝ) : ℝ :=
  let vlim : ℝ := line.speed_limit me.pos_m
  let nsc : Option ℝ × ℝ := line.next_speed_change me.pos_m
  if nsc.2 < vlim then
    match nsc.1 with
    | none => vlim
    | some dist =>
      if me.a_brake ≤ 0 then vlim
      else
        let braking_dist : ℝ := braking_distance_fin me.vel me.a_brake
        let target_braking_dist : ℝ := braking_distance_fin nsc.2 me.a_brake
        let needed_dist : ℝ := braking_dist - target_braking_dist
        if dist ≤ needed_dist + margin then
          let safe_distance : ℝ := max 0 (dist - margin)
          let v_target_squared : ℝ :=
            nsc.2 ^ 2 + 2 * me.a_brake * safe_distance
          let v_target : ℝ :=
            if 0 < v_target_squared then Real.sqrt v_target_squared else 0
          min vlim v_target
        else vlim
  else vlim

/-- The ETCS baseline controller (src/controllers.py, `EtcsBaseline`). -/
structure EtcsBaseline where
  tr : ℝ
  margin : ℝ

/-- `EtcsBaseline.__init__` (src/controllers.py lines 44-46): negative
reaction time and margin are clamped to 0. -/
def mkEtcsBaseline (reaction_s margin_m : ℝ) : EtcsBaseline :=
  ⟨max 0 reaction_s, max 0 margin_m⟩

/-- `EtcsBaseline.desired_speed` (src/controllers.py lines 48-83): track
limit lowered by the lookahead, then the leader-following cap when the gap
to the leader's rear is below the safety distance. -/
noncomputable def EtcsBaseline.desired_speed (c : EtcsBaseline)
    (me : TrainState ℝ) (leader : Option (TrainState ℝ)) (line : Line ℝ) :
    ℝ :=
  let vlim : ℝ := lookahead_vlim c.margin me line
  match leader with
  | some ld =>
    let gap : ℝ := (ld.pos_m - ld.length_m) - me.pos_m
    let dsafe : WithTop ℝ :=
      braking_distance me.vel me.a_brake + (me.vel * c.tr : ℝ) + (c.margin : ℝ)
    if (gap : WithTop ℝ) < dsafe then
      let safe_distance : ℝ := max 0 (gap - c.margin - me.vel * c.tr)
      let v_target_squared : ℝ := 2 * me.a_brake * safe_distance
      let v_target : ℝ :=
        if 0 < v_target_squared then Real.sqrt v_target_squared else 0
      min vlim v_target
    else vlim
  | none => vlim

/-- The DISTA advisory controller (src/controllers.py, `DistaAI_Simple`). -/
structure DistaAI_Simple where
  tr : ℝ
  margin : ℝ

/-- `DistaAI_Simple.__init__` (src/controllers.py lines 86-88). -/
def mkDistaAI_Simple (reaction_s margin_m : ℝ) : DistaAI_Simple :=
  ⟨max 0 reaction_s, max 0 margin_m⟩

/-- `DistaAI_Simple.desired_speed` (src/controllers.py lines 90-120): same
lookahead and leader cap as the baseline; without a binding leader
constraint it ramps toward the limit (`min(vlim, vel + 0.5·a_max)`). -/
noncomputable def DistaAI_Simple.desired_speed (c : DistaAI_Simple)
    (me : TrainState ℝ) (leader : Option (TrainState ℝ)) (line : Line ℝ) :
    ℝ :=
  let vlim : ℝ := lookahead_vlim c.margin me line
  match leader with
  | some ld =>
    let gap : ℝ := (ld.pos_m - ld.length_m) - me.pos_m
    let dsafe : WithTop ℝ :=
      braking_distance me.vel me.a_brake + (me.vel * c.tr : ℝ) + (c.margin : ℝ)
    if (gap : WithTop ℝ) < dsafe then
      let safe_distance : ℝ := max 0 (gap - c.margin - me.vel * c.tr)
      let v_target_squared : ℝ := 2 * me.a_brake * safe_distance
      let v_target : ℝ :=
        if 0 < v_target_squared then Real.sqrt v_target_squared else 0
      min vlim v_target
    else min vlim (me.vel + (1 / 2) * me.a_max)
  | none => min vlim (me.vel + (1 / 2) * me.a_max)

/-! ## src/metrics.py -/

/-- Stable ascending insertion: a new element goes after existing equal
ones, as pandas' stable sorts place it. -/
def insertSorted (x : K) : List K → List K
  | [] => [x]
  | y :: ys => if y ≤ x then y :: insertSorted x ys else x :: y :: ys

/-- Stable ascending sort (the order pandas' `sort_values`/sorted `groupby`
keys produce). -/
def sortAsc (l : List K) : List K :=
  l.foldl (fun acc x => insertSorted x acc) []

/-- `compute_headways` (src/metrics.py lines 4-27) on rows of `(t, pos_m)`:
group by timestamp, sort each group by position, emit
`max(front − (rear + train_length), 0)` for each adjacent pair; groups with
at most one train emit nothing.  (The dataframe's other columns play no
part.) -/
def compute_headways [DecidableEq K] (rows : List (K × K))
    (train_length : K) : List (K × K) :=
  let ts : List K := sortAsc (rows.map Prod.fst).dedup
  ts.flatMap fun t =>
    let g : List K := sortAsc ((rows.filter (fun r => r.1 = t)).map Prod.snd)
    if g.length ≤ 1 then []
    else (g.zip g.tail).map fun pr => (t, max (pr.2 - (pr.1 + train_length)) 0)

/-! ## src/sim.py

`run_sim` starts one `simpy` process per train, all at time 0, each looping
"check finish / pick leader / ask controller / step / log" and then waiting
`dt`.  All waits are equal and `simpy` serves same-time events FIFO, so every
tick executes the loop bodies of the still-live processes in the original
registration order, each seeing the in-place mutations of the ones before
it.  That is embedded as a fold over the (fixed-length) train list per tick.
A process that logs its `finished=True` record breaks out of its loop and is
never scheduled again (`alive := false` here).  The horizon `T` and tick
size `dt` enter only through the number of executed ticks `N` (the count of
tick times `k·dt` below `T`), which parametrises the embedding directly. -/

/-- A train of the running simulation: its mutable state and whether its
process is still scheduled. -/
structure SimTrain (K : Type) where
  train : TrainState K
  alive : Bool
deriving DecidableEq

/-- One trace record (src/sim.py lines 19 and 33).  `k` is the tick index
(Python logs `t = k·dt`).  `leader` is a ghost field recording the id picked
by the leader search that tick (`none` for finish records and leaderless
ticks); it is not part of the Python log and does not affect the run. -/
structure Rec (K : Type) where
  k : ℕ
  id : ℕ
  pos_m : K
  v : K
  finished : Bool
  leader : Option ℕ
deriving DecidableEq

/-- The whole mutable state of `run_sim`: the train list (`trains`, mutated
in place by the processes) and the log. -/
structure SimState (K : Type) where
  trains : List (SimTrain K)
  log : List (Rec K)
deriving DecidableEq

/-- `min(potential_leaders, key=lambda x: x.pos_m)` — Python's `min` keeps
the first of several minima, as this fold does. -/
def pickMinPos : List (TrainState K) → Option (TrainState K)
  | [] => none
  | t :: ts =>
    some (ts.foldl (fun best u => if u.pos_m < best.pos_m then u else best) t)

/-- The leader search (src/sim.py lines 23-24): among **all** trains —
finished ones included — strictly ahead of `me` and not `me` itself, the one
with the smallest position. -/
def findLeader (trains : List (TrainState K)) (me : TrainState K) :
    Option (TrainState K) :=
  pickMinPos (trains.filter fun t => me.pos_m < t.pos_m ∧ t.id ≠ me.id)

/-- One execution of the process-loop body of the train at index `i`
(src/sim.py lines 12-35) during tick `k`: dead processes do nothing; a train
within 1 m of the end logs its `finished=True` record and stops; otherwise
leader search, controller, step, log.  `ctrl` is `controller_map` as a
function of the train id. -/
def procIdx (line : Line K)
    (ctrl : ℕ → TrainState K → Option (TrainState K) → Line K → K)
    (dt : K) (k : ℕ) (s : SimState K) (i : ℕ) : SimState K :=
  match s.trains[i]? with
  | none => s
  | some st =>
    if st.alive = false then s
    else if line.total_m - 1 ≤ st.train.pos_m then
      { trains := s.trains.set i ⟨st.train, false⟩
        log := s.log ++
          [⟨k, st.train.id, st.train.pos_m, st.train.vel, true, none⟩] }
    else
      let leader : Option (TrainState K) :=
        findLeader (s.trains.map SimTrain.train) st.train
      let v_des : K := ctrl st.train.id st.train leader line
      let tr' : TrainState K := st.train.step dt v_des line
      { trains := s.trains.set i ⟨tr', true⟩
        log := s.log ++
          [⟨k, tr'.id, tr'.pos_m, tr'.vel, false, Option.map TrainState.id leader⟩] }

/-- One simulation tick: the live processes run once each, in registration
order. -/
def tick (line : Line K)
    (ctrl : ℕ → TrainState K → Option (TrainState K) → Line K → K)
    (dt : K) (k : ℕ) (s : SimState K) : SimState K :=
  (List.range s.trains.length).foldl (procIdx line ctrl dt k) s

/-- The simulation state after `N` ticks, starting from the given trains
(all processes live, empty log). -/
def afterTicks (line : Line K)
    (ctrl : ℕ → TrainState K → Option (TrainState K) → Line K → K)
    (dt : K) (trains : List (TrainState K)) : ℕ → SimState K
  | 0 => ⟨trains.map (fun t => ⟨t, true⟩), []⟩
  | n + 1 => tick line ctrl dt n (afterTicks line ctrl dt trains n)

/-- `run_sim` (src/sim.py lines 3-44): the trace of an `N`-tick run. -/
def run_sim (line : Line K)
    (ctrl : ℕ → TrainState K → Option (TrainState K) → Line K → K)
    (dt : K) (trains : List (TrainState K)) (N : ℕ) : List (Rec K) :=
  (afterTicks line ctrl dt trains N).log

/-- The invariant of a running simulation: train ids are distinct; a
`finished=true` record is the last record of its id; a live process has
emitted no `finished=true` record; every `finished=true` record belongs to a
dead process. -/
def SimInv (s : SimState K) : Prop :=
  (s.trains.map (fun u => u.train.id)).Nodup ∧
  (∀ xs (r : Rec K) ys, s.log = xs ++ r :: ys → r.finished = true →
    ∀ r2 ∈ ys, r2.id ≠ r.id) ∧
  (∀ i : ℕ, ∀ st : SimTrain K, s.trains[i]? = some st → st.alive = true →
    ∀ r ∈ s.log, r.id = st.train.id → r.finished = false) ∧
  (∀ r ∈ s.log, r.finished = true →
    ∃ i : ℕ, ∃ st : SimTrain K, s.trains[i]? = some st ∧ st.alive = false ∧
      st.train.id = r.id)

/-! ## Concrete instances used by witnesses (data/segments.csv: an 80 km/h
segment of 6.9 km followed by a 40 km/h segment of 5.7 km). -/

/-- First demo segment: 6 900 m at 80 km/h = 200/9 m/s. -/
def demoSeg1 : Segment ℚ := ⟨"A", "B", 6900, 200 / 9, 2, "ETCS"⟩

/-- Second demo segment: 5 700 m at 40 km/h = 100/9 m/s. -/
def demoSeg2 : Segment ℚ := ⟨"B", "C", 5700, 100 / 9, 2, "ETCS"⟩

/-- The demo track of the spec's speed-limit property. -/
def demoLine : Line ℚ := ⟨[demoSeg1, demoSeg2], by simp⟩

/-- A demo train in the simple (fixed brake limit) configuration. -/
def demoTrain : TrainState ℚ :=
  mkTrainState 0 0 5 120 (7 / 10) (7 / 10) none .DRY

/-- The spec's two-train scenario: a single 18.3 km segment at 72 km/h. -/
noncomputable def scenarioLine : Line ℝ := ⟨[⟨"S1", "S2", 18300, 20, 2, "ETCS"⟩], by simp⟩

/-- The following train of the scenario: at the origin, 72 km/h = 20 m/s. -/
noncomputable def follower : TrainState ℝ := ⟨1, 0, 20, 120, 7 / 10, 7 / 10, false, none, .DRY⟩

/-- The leading train of the scenario: 500 m ahead, same speed and length. -/
noncomputable def leadTrain : TrainState ℝ :=
  ⟨0, 500, 20, 120, 7 / 10, 7 / 10, false, none, .DRY⟩

/-- The single-segment track of the C2 witness run. -/
def wLine : Line ℚ := ⟨[⟨"A", "B", 1000, 20, 2, "ETCS"⟩], by simp⟩

/-- The C2 witness train: 999.5 m down a 1 000 m track, so already within
1 m of the end. -/
def wTrain : TrainState ℚ := ⟨7, 1999 / 2, 0, 120, 7 / 10, 7 / 10, false,
  none, .DRY⟩

/-- The single-segment track of the C2 counterexample run. -/
noncomputable def ceLine : Line ℝ := ⟨[⟨"A", "B", 1000, 20, 2, "ETCS"⟩], by simp⟩

/-- Counterexample train 0: within 1 m of the end from the start. -/
noncomputable def ceTrainA : TrainState ℝ :=
  ⟨0, 1999 / 2, 0, 120, 7 / 10, 7 / 10, false, none, .DRY⟩

/-- Counterexample train 1: 993 m down the track, doing 10 m/s. -/
noncomputable def ceTrainC : TrainState ℝ :=
  ⟨1, 993, 10, 120, 7 / 10, 7 / 10, false, none, .DRY⟩

noncomputable def ceCtrl :
    ℕ → TrainState ℝ → Option (TrainState ℝ) → Line ℝ → ℝ :=
  fun _ me leader line =>
    EtcsBaseline.desired_speed (mkEtcsBaseline 2 150) me leader line

/-! ## Supporting lemmas for the claim theorems -/

lemma sumLen_nil : sumLen ([] : List (Segment K)) = 0 := rfl

lemma sumLen_cons (s : Segment K) (ss : List (Segment K)) :
    sumLen (s :: ss) = s.length_m + sumLen ss := by
  simp [sumLen]

lemma sumLen_append (a b : List (Segment K)) :
    sumLen (a ++ b) = sumLen a + sumLen b := by
  simp [sumLen]

lemma sumLen_nonneg {ss : List (Segment K)}
    (h : ∀ u ∈ ss, 0 ≤ u.length_m) : 0 ≤ sumLen ss := by
  induction ss with
  | nil => simp [sumLen_nil]
  | cons s rest ih =>
    rw [sumLen_cons]
    have hs := h s (by simp)
    have hr := ih (fun u hu => h u (by simp [hu]))
    linarith

/-- The speed-limit scan skips a prefix of segments that all end at or before
`p` (lengths nonnegative so the running offset never overshoots). -/
lemma speedScan_skip (p : K) (a b : List (Segment K)) :
    ∀ c : K, (∀ u ∈ a, 0 ≤ u.length_m) → c + sumLen a ≤ p →
      speedScan p c (a ++ b) = speedScan p (c + sumLen a) b := by
  induction a with
  | nil => intro c _ _; simp [sumLen_nil]
  | cons s rest ih =>
    intro c hlen hle
    have hrest : 0 ≤ sumLen rest :=
      sumLen_nonneg (fun u hu => hlen u (by simp [hu]))
    have hskip : ¬ (c ≤ p ∧ p < c + s.length_m) := by
      rintro ⟨-, hlt⟩
      rw [sumLen_cons] at hle
      linarith
    rw [List.cons_append, speedScan, if_neg hskip,
      ih (c + s.length_m) (fun u hu => hlen u (by simp [hu]))
        (by rw [sumLen_cons] at hle; linarith)]
    have harg : c + s.length_m + sumLen rest = c + sumLen (s :: rest) := by
      rw [sumLen_cons]; ring
    rw [harg]

/-- The speed-limit scan finds nothing when `p` lies at or past the end of
all remaining segments. -/
lemma speedScan_none (p : K) (b : List (Segment K)) :
    ∀ c : K, (∀ u ∈ b, 0 ≤ u.length_m) → c + sumLen b ≤ p →
      speedScan p c b = none := by
  induction b with
  | nil => intro c _ _; rfl
  | cons s rest ih =>
    intro c hlen hle
    have hrest : 0 ≤ sumLen rest :=
      sumLen_nonneg (fun u hu => hlen u (by simp [hu]))
    rw [sumLen_cons] at hle
    have hskip : ¬ (c ≤ p ∧ p < c + s.length_m) := by
      rintro ⟨-, hlt⟩; linarith
    rw [speedScan, if_neg hskip]
    exact ih (c + s.length_m) (fun u hu => hlen u (by simp [hu])) (by linarith)

/-- The speed-limit scan finds nothing left of the origin: every interval
start is `≥ 0` when lengths are nonnegative. -/
lemma speedScan_none_of_neg (p : K) (b : List (Segment K)) :
    ∀ c : K, (∀ u ∈ b, 0 ≤ u.length_m) → 0 ≤ c → p < 0 →
      speedScan p c b = none := by
  induction b with
  | nil => intro c _ _ _; rfl
  | cons s rest ih =>
    intro c hlen hc hp
    have hskip : ¬ (c ≤ p ∧ p < c + s.length_m) := by
      rintro ⟨hle, -⟩; linarith
    rw [speedScan, if_neg hskip]
    exact ih (c + s.length_m) (fun u hu => hlen u (by simp [hu]))
      (by have := hlen s (by simp); linarith) hp

/-- On the segment containing `p`, `speed_limit` answers that segment's
limit. -/
lemma speed_limit_of_mem (l : Line K) (p : K) (a : List (Segment K))
    (s : Segment K) (b : List (Segment K))
    (hseg : l.segments = a ++ s :: b)
    (hlen : ∀ u ∈ l.segments, 0 ≤ u.length_m)
    (h1 : sumLen a ≤ p) (h2 : p < sumLen a + s.length_m) :
    l.speed_limit p = s.speed_mps := by
  have hlena : ∀ u ∈ a, 0 ≤ u.length_m := by
    intro u hu; exact hlen u (by rw [hseg]; exact List.mem_append_left _ hu)
  have hscan : speedScan p 0 l.segments = some s.speed_mps := by
    rw [hseg, speedScan_skip p a (s :: b) 0 hlena (by simpa using h1)]
    rw [speedScan, if_pos ⟨by simpa using h1, by simpa using h2⟩]
  rw [Line.speed_limit, hscan]
  rfl

/-- Past the end of the track, `speed_limit` answers the last segment's
limit. -/
lemma speed_limit_of_ge_total (l : Line K) (p : K)
    (hlen : ∀ u ∈ l.segments, 0 ≤ u.length_m) (h : l.total_m ≤ p) :
    l.speed_limit p = (l.segments.getLast l.nonempty).speed_mps := by
  have hscan : speedScan p 0 l.segments = none :=
    speedScan_none p l.segments 0 hlen (by simpa [Line.total_m] using h)
  rw [Line.speed_limit, hscan]
  rfl

/-- Left of the origin, `speed_limit` also answers the last segment's
limit. -/
lemma speed_limit_of_neg (l : Line K) (p : K)
    (hlen : ∀ u ∈ l.segments, 0 ≤ u.length_m) (h : p < 0) :
    l.speed_limit p = (l.segments.getLast l.nonempty).speed_mps := by
  have hscan : speedScan p 0 l.segments = none :=
    speedScan_none_of_neg p l.segments 0 hlen le_rfl h
  rw [Line.speed_limit, hscan]
  rfl

/-- The forward scan answers the sentinel when no remaining segment is
slower than `vcur`. -/
lemma nscScan_sentinel (p vcur : K) (b : List (Segment K)) :
    ∀ c : K, (∀ u ∈ b, ¬ u.speed_mps < vcur) →
      nscScan p vcur c b = (none, vcur) := by
  induction b with
  | nil => intro c _; rfl
  | cons s rest ih =>
    intro c hno
    rw [nscScan, if_neg (hno s (by simp))]
    exact ih (c + s.length_m) (fun u hu => hno u (by simp [hu]))

/-- The forward scan answers distance-to-start and limit of the first
strictly slower segment. -/
lemma nscScan_found (p vcur : K) (b₁ : List (Segment K)) (t : Segment K)
    (b₂ : List (Segment K)) :
    ∀ c : K, (∀ u ∈ b₁, ¬ u.speed_mps < vcur) → t.speed_mps < vcur →
      nscScan p vcur c (b₁ ++ t :: b₂) =
        (some (c + sumLen b₁ - p), t.speed_mps) := by
  induction b₁ with
  | nil => intro c _ ht; rw [List.nil_append, nscScan, if_pos ht, sumLen_nil,
      add_zero]
  | cons s rest ih =>
    intro c hno ht
    rw [List.cons_append, nscScan, if_neg (hno s (by simp)),
      ih (c + s.length_m) (fun u hu => hno u (by simp [hu])) ht]
    have harg : c + s.length_m + sumLen rest = c + sumLen (s :: rest) := by
      rw [sumLen_cons]; ring
    rw [harg]

/-- The containment search of `next_speed_change` skips a prefix of segments
that all end at or before `p`. -/
lemma nscFind_skip (p : K) (a b : List (Segment K)) :
    ∀ c : K, (∀ u ∈ a, 0 ≤ u.length_m) → c + sumLen a ≤ p →
      nscFind p c (a ++ b) = nscFind p (c + sumLen a) b := by
  induction a with
  | nil => intro c _ _; simp [sumLen_nil]
  | cons s rest ih =>
    intro c hlen hle
    have hrest : 0 ≤ sumLen rest :=
      sumLen_nonneg (fun u hu => hlen u (by simp [hu]))
    have hskip : ¬ (c ≤ p ∧ p < c + s.length_m) := by
      rintro ⟨-, hlt⟩
      rw [sumLen_cons] at hle
      linarith
    rw [List.cons_append, nscFind, if_neg hskip,
      ih (c + s.length_m) (fun u hu => hlen u (by simp [hu]))
        (by rw [sumLen_cons] at hle; linarith)]
    have harg : c + s.length_m + sumLen rest = c + sumLen (s :: rest) := by
      rw [sumLen_cons]; ring
    rw [harg]

/-- On the segment containing `p`, `next_speed_change` hands over to the
forward scan started at the next segment. -/
lemma next_speed_change_eq_scan (l : Line K) (p : K) (a : List (Segment K))
    (s : Segment K) (b : List (Segment K))
    (hseg : l.segments = a ++ s :: b)
    (hlen : ∀ u ∈ l.segments, 0 ≤ u.length_m)
    (h1 : sumLen a ≤ p) (h2 : p < sumLen a + s.length_m) :
    l.next_speed_change p =
      nscScan p s.speed_mps (sumLen a + s.length_m) b := by
  have hlena : ∀ u ∈ a, 0 ≤ u.length_m := by
    intro u hu; exact hlen u (by rw [hseg]; exact List.mem_append_left _ hu)
  have hfind : nscFind p 0 l.segments =
      some (nscScan p s.speed_mps (sumLen a + s.length_m) b) := by
    rw [hseg, nscFind_skip p a (s :: b) 0 hlena (by simpa using h1)]
    rw [nscFind, if_pos ⟨by simpa using h1, by simpa using h2⟩]
    have harg : (0 : K) + sumLen a + s.length_m = sumLen a + s.length_m := by
      ring
    rw [harg]
  rw [Line.next_speed_change, hfind]
  rfl


/-! ## C6 — `speed_limit` contract -/

/-- C6: on any track whose segment lengths are nonnegative, a position in
the half-open interval `[cum i, cum (i+1))` of segment `i` — presented as a
list split `a ++ s :: b` with `sumLen a ≤ p < sumLen a + s.length_m` — gets
that segment's limit; a position at or past the total length gets the final
segment's limit (no error); on the demo track the limits at 6 899 m and
6 900 m are 80/3.6 and 40/3.6 m/s. -/
theorem speed_limit_contract :
    (∀ (K : Type) [instK : LinearOrderedField K] (l : Line K) (p : K)
        (a : List (Segment K)) (s : Segment K) (b : List (Segment K)),
        l.segments = a ++ s :: b → (∀ u ∈ l.segments, 0 ≤ u.length_m) →
        sumLen a ≤ p → p < sumLen a + s.length_m →
        l.speed_limit p = s.speed_mps) ∧
    (∀ (K : Type) [instK : LinearOrderedField K] (l : Line K) (p : K),
        (∀ u ∈ l.segments, 0 ≤ u.length_m) → l.total_m ≤ p →
        l.speed_limit p = (l.segments.getLast l.nonempty).speed_mps) ∧
    demoLine.speed_limit 6899 = 80 / (36 / 10) ∧
    demoLine.speed_limit 6900 = 40 / (36 / 10) := by
  refine ⟨?_, ?_,
    by norm_num [Line.speed_limit, demoLine, demoSeg1, demoSeg2, speedScan],
    by norm_num [Line.speed_limit, demoLine, demoSeg1, demoSeg2, speedScan]⟩
  · intro K instK l p a s b hseg hlen h1 h2
    exact speed_limit_of_mem l p a s b hseg hlen h1 h2
  · intro K instK l p hlen h
    exact speed_limit_of_ge_total l p hlen h

/-- C6 witness: the general clause applied to the demo track at position 0
(first segment) and at position 20 000 m (past the 12 600 m end). -/
theorem speed_limit_contract_witness :
    demoLine.speed_limit 0 = 200 / 9 ∧ demoLine.speed_limit 20000 = 100 / 9 := by
  constructor
  · exact speed_limit_contract.1 ℚ demoLine 0 [] demoSeg1 [demoSeg2]
      rfl (by decide) (by norm_num [sumLen_nil])
      (by norm_num [sumLen_nil, demoSeg1])
  · exact speed_limit_contract.2.1 ℚ demoLine 20000 (by decide)
      (by norm_num [Line.total_m, demoLine, sumLen, demoSeg1, demoSeg2])

/-! ## C10 — `speed_limit` left of the origin -/

/-- C10: on any track with nonnegative segment lengths, a negative position
falls through the scan (every interval start is `≥ 0`) and gets the **last**
segment's limit — the same fallback as past the end, not the first
segment's limit. -/
theorem speed_limit_negative_pos {K : Type} [LinearOrderedField K]
    (l : Line K) (p : K) (hlen : ∀ u ∈ l.segments, 0 ≤ u.length_m)
    (hp : p < 0) :
    l.speed_limit p = (l.segments.getLast l.nonempty).speed_mps :=
  speed_limit_of_neg l p hlen hp

/-- C10 witness: at −5 m the demo track answers the second (last) segment's
40 km/h, not the first segment's 80 km/h. -/
theorem speed_limit_negative_pos_witness :
    demoLine.speed_limit (-5) = 100 / 9 := by
  have h := speed_limit_negative_pos demoLine (-5) (by decide) (by norm_num)
  simpa [demoLine, demoSeg2] using h

/-! ## C1 — `next_speed_change` contract (spec-modelled: the operation is
called by both controllers but defined nowhere in the repository). -/

/-- C1: with `p` inside segment `s` (split `a ++ s :: b`, lengths
nonnegative), the limit at `p` is `s.speed_mps`; when no segment after `s`
is strictly slower, `next_speed_change` answers the sentinel
`(none, current limit)`; when `t` is the first strictly slower segment
ahead (split `b = b₁ ++ t :: b₂`, nothing in `b₁` slower), it answers the
distance from `p` to `t`'s start together with `t`'s limit. -/
theorem next_speed_change_contract {K : Type} [LinearOrderedField K]
    (l : Line K) (p : K) (a : List (Segment K)) (s : Segment K)
    (b : List (Segment K)) (hseg : l.segments = a ++ s :: b)
    (hlen : ∀ u ∈ l.segments, 0 ≤ u.length_m)
    (h1 : sumLen a ≤ p) (h2 : p < sumLen a + s.length_m) :
    l.speed_limit p = s.speed_mps ∧
    ((∀ u ∈ b, ¬ u.speed_mps < s.speed_mps) →
      l.next_speed_change p = (none, s.speed_mps)) ∧
    (∀ b₁ (t : Segment K) b₂, b = b₁ ++ t :: b₂ →
      (∀ u ∈ b₁, ¬ u.speed_mps < s.speed_mps) →
      t.speed_mps < s.speed_mps →
      l.next_speed_change p =
        (some (sumLen a + s.length_m + sumLen b₁ - p), t.speed_mps)) := by
  refine ⟨speed_limit_of_mem l p a s b hseg hlen h1 h2, ?_, ?_⟩
  · intro hno
    rw [next_speed_change_eq_scan l p a s b hseg hlen h1 h2]
    exact nscScan_sentinel p s.speed_mps b _ hno
  · intro b₁ t b₂ hb hno ht
    rw [next_speed_change_eq_scan l p a s b hseg hlen h1 h2, hb]
    rw [nscScan_found p s.speed_mps b₁ t b₂ _ hno ht]

/-- C1 witness: from 1 000 m on the demo track the next slower segment
starts at 6 900 m with limit 40 km/h, so the lookahead answers
`(5 900 m, 100/9 m/s)`. -/
theorem next_speed_change_contract_witness :
    demoLine.next_speed_change 1000 = (some 5900, 100 / 9) := by
  have h := (next_speed_change_contract demoLine 1000 [] demoSeg1 [demoSeg2]
      rfl (by decide) (by norm_num [sumLen_nil])
      (by norm_num [sumLen_nil, demoSeg1])).2.2 [] demoSeg2 [] rfl
      (by simp) (by norm_num [demoSeg1, demoSeg2])
  norm_num [sumLen_nil, demoSeg1, demoSeg2] at h
  exact h

/-! ## C7 — the controller-level `braking_distance` (corrected) -/

/-- C7 counterexample: the claim "`braking_distance(v, a_eff)` equals
`v²/(2·a_eff)` for `a_eff > 0` and returns 0 for `v = 0` regardless of
`a_eff`" fails on the code at two concrete inputs: at `v = 0, a_eff = 0`
the code returns the infinity sentinel, not 0; and at
`v = 1, a_eff = 10⁻⁷ > 0` the code's `max(a_eff, 1e-6)` floor makes the
result `500 000`, not `v²/(2·a_eff) = 5 000 000`. -/
theorem braking_distance_cex :
    braking_distance (0 : ℚ) 0 = ⊤ ∧
    (⊤ : WithTop ℚ) ≠ ((0 : ℚ) : WithTop ℚ) ∧
    braking_distance (1 : ℚ) (1 / 10000000) = ((500000 : ℚ) : WithTop ℚ) ∧
    (1 * 1 / (2 * (1 / 10000000)) : ℚ) = 5000000 ∧
    ((500000 : ℚ) : WithTop ℚ) ≠ ((5000000 : ℚ) : WithTop ℚ) := by
  refine ⟨?_, by simp, ?_, by norm_num, by simp⟩
  · rw [braking_distance, if_pos le_rfl]
  · rw [braking_distance, if_neg (by norm_num)]
    norm_num [braking_distance_fin]

/-- C7 amended: `braking_distance(v, a_eff)` equals
`v²/(2·max(a_eff, 10⁻⁶))` for `a_eff > 0` — hence `v²/(2·a_eff)` whenever
`a_eff ≥ 10⁻⁶`, in particular `braking_distance(30, 1) = 450` and
`braking_distance(0, a_eff) = 0` for `a_eff > 0` — and it returns the
`float('inf')` sentinel whenever `a_eff ≤ 0`, regardless of `v` (also for
`v = 0`). -/
theorem braking_distance_amended :
    (∀ (K : Type) [instK : LinearOrderedField K] (v a_eff : K), 0 < a_eff →
      braking_distance v a_eff =
        ((v * v / (2 * max a_eff (1 / 1000000)) : K) : WithTop K)) ∧
    (∀ (K : Type) [instK : LinearOrderedField K] (v a_eff : K),
      1 / 1000000 ≤ a_eff →
      braking_distance v a_eff = ((v * v / (2 * a_eff) : K) : WithTop K)) ∧
    (∀ (K : Type) [instK : LinearOrderedField K] (a_eff : K), 0 < a_eff →
      braking_distance (0 : K) a_eff = ((0 : K) : WithTop K)) ∧
    (∀ (K : Type) [instK : LinearOrderedField K] (v a_eff : K), a_eff ≤ 0 →
      braking_distance v a_eff = ⊤) ∧
    braking_distance (30 : ℚ) 1 = ((450 : ℚ) : WithTop ℚ) := by
  have key : ∀ (K : Type) [instK : LinearOrderedField K] (v a_eff : K),
      0 < a_eff → braking_distance v a_eff =
        ((v * v / (2 * max a_eff (1 / 1000000)) : K) : WithTop K) := by
    intro K instK v a_eff ha
    rw [braking_distance, if_neg (not_le.mpr ha)]
    rfl
  have pos_of_eps : ∀ (K : Type) [instK : LinearOrderedField K] (a_eff : K),
      1 / 1000000 ≤ a_eff → (0 : K) < a_eff := by
    intro K instK a_eff h
    calc (0 : K) < 1 / 1000000 := by norm_num
      _ ≤ a_eff := h
  refine ⟨key, ?_, ?_, ?_, ?_⟩
  · intro K instK v a_eff ha
    rw [key K v a_eff (pos_of_eps K a_eff ha), max_eq_left ha]
  · intro K instK a_eff ha
    rw [key K 0 a_eff ha]
    simp
  · intro K instK v a_eff ha
    rw [braking_distance, if_pos ha]
  · rw [key ℚ 30 1 (by norm_num)]
    norm_num

/-- C7 witness: the amended clause for `a_eff ≥ 10⁻⁶` applied at
`v = 10, a_eff = 1/2`. -/
theorem braking_distance_amended_witness :
    braking_distance (10 : ℚ) (1 / 2) = ((100 : ℚ) : WithTop ℚ) := by
  have h := braking_distance_amended.2.1 ℚ 10 (1 / 2) (by norm_num)
  norm_num at h
  exact h

/-! ## C4 — `calculate_braking_distance` contract -/

/-- C4: for every braking profile, rail condition and gradient, the braking
distance is `(0, 0)` when `v_initial ≤ v_final` (the km/h comparison and
the converted m/s comparison agree), and otherwise the pair
`(s_reaction + s_brake, t_response + t_brake)` with the claim's formulas —
reaction time 3.5 s (P) / 8.0 s (G), minus 1.5 s with an EP brake, 0 when
reaction time is excluded; deceleration
`max(0.1, min(bp/100·μ·g·af, μ·g) + (gradient/1000)·g)`, which is always
positive; and μ given by the 0.33/0.25/0.15/0.08 table. -/
theorem calculate_braking_distance_contract {K : Type}
    [LinearOrderedField K] (v_initial_kmh v_final_kmh : K)
    (ch : TrainBrakingCharacteristics K) (rc : RailCondition)
    (gradient_promille : K) (include_reaction_time : Bool) :
    (v_initial_kmh ≤ v_final_kmh →
      calculate_braking_distance v_initial_kmh v_final_kmh ch rc
        gradient_promille include_reaction_time = (0, 0)) ∧
    (v_final_kmh < v_initial_kmh →
      calculate_braking_distance v_initial_kmh v_final_kmh ch rc
        gradient_promille include_reaction_time =
        (v_initial_kmh / (36 / 10) *
            (if include_reaction_time then
              (if ch.brake_type = BrakeType.P then (7 : K) / 2 else 8) -
                (if ch.has_ep_brake then 3 / 2 else 0)
            else 0) +
          ((v_final_kmh / (36 / 10)) ^ 2 - (v_initial_kmh / (36 / 10)) ^ 2) /
            (-(2 * calculate_max_deceleration ch rc gradient_promille)),
         (if include_reaction_time then
            (if ch.brake_type = BrakeType.P then (7 : K) / 2 else 8) -
              (if ch.has_ep_brake then 3 / 2 else 0)
          else 0) +
          (v_final_kmh / (36 / 10) - v_initial_kmh / (36 / 10)) /
            (-calculate_max_deceleration ch rc gradient_promille))) ∧
    calculate_max_deceleration ch rc gradient_promille =
      max (1 / 10)
        (min (ch.brake_percentage / 100 * adhesionCoefficient rc *
            (981 / 100) * ch.adhesion_factor)
          (adhesionCoefficient rc * (981 / 100)) +
          gradient_promille / 1000 * (981 / 100)) ∧
    0 < calculate_max_deceleration ch rc gradient_promille ∧
    adhesionCoefficient (K := K) RailCondition.DRY = 33 / 100 ∧
    adhesionCoefficient (K := K) RailCondition.WET = 25 / 100 ∧
    adhesionCoefficient (K := K) RailCondition.SLIPPERY = 15 / 100 ∧
    adhesionCoefficient (K := K) RailCondition.ICY = 8 / 100 := by
  have hconv : ∀ x y : K, x ≤ y ↔ x / (36 / 10) ≤ y / (36 / 10) := by
    intro x y
    exact (div_le_div_iff_of_pos_right (by norm_num : (0 : K) < 36 / 10)).symm
  have hpos : 0 < calculate_max_deceleration ch rc gradient_promille :=
    lt_of_lt_of_le (by norm_num) (le_max_left _ _)
  refine ⟨?_, ?_, ?_, hpos, rfl, rfl, rfl, rfl⟩
  · intro h
    rw [calculate_braking_distance, if_pos ((hconv _ _).mp h)]
  · intro h
    have h' : ¬ v_initial_kmh / (36 / 10) ≤ v_final_kmh / (36 / 10) := by
      rw [← hconv]; exact not_le.mpr h
    rw [calculate_braking_distance, if_neg h']
    have hbt : brakeResponseTime (K := K) ch.brake_type =
        (if ch.brake_type = BrakeType.P then (7 : K) / 2 else 8) := by
      cases ch.brake_type <;> simp [brakeResponseTime]
    have hep : (if ch.has_ep_brake then epBrakeTimeReduction (K := K) else 0) =
        (if ch.has_ep_brake then (3 : K) / 2 else 0) := by
      cases ch.has_ep_brake <;> simp [epBrakeTimeReduction]
    have hneg : ∀ x a : K, x / (2 * -a) = x / (-(2 * a)) := by
      intro x a; ring_nf
    cases hinc : include_reaction_time with
    | true => simp only [if_pos, hbt, hep, hneg]
    | false => simp only [if_neg, hbt, hep, hneg]; norm_num [hneg]
  · rw [calculate_max_deceleration]
    rfl

/-- C4 witness: both branches at concrete inputs — no braking needed when
the target speed is higher, and the formula instance for the modern EMU
profile braking 160 → 0 km/h on dry rail. -/
theorem calculate_braking_distance_contract_witness :
    calculate_braking_distance (50 : ℚ) 60
      ⟨"EMU_modern", 180, 120, BrakeType.P, 135, true, 160, 1⟩
      RailCondition.DRY 0 true = (0, 0) ∧
    (0 : ℚ) < calculate_max_deceleration
      ⟨"EMU_modern", 180, 120, BrakeType.P, 135, true, 160, 1⟩
      RailCondition.DRY 0 := by
  constructor
  · exact (calculate_braking_distance_contract (50 : ℚ) 60
      ⟨"EMU_modern", 180, 120, BrakeType.P, 135, true, 160, 1⟩
      RailCondition.DRY 0 true).1 (by norm_num)
  · exact (calculate_braking_distance_contract (50 : ℚ) 60
      ⟨"EMU_modern", 180, 120, BrakeType.P, 135, true, 160, 1⟩
      RailCondition.DRY 0 true).2.2.2.1

/-! ## C8 — construction-time validation vs clamping -/

/-- C8: constructing `TrainBrakingCharacteristics` errors exactly when the
mass is `≤ 0` or the brake percentage leaves `[0, 200]`, while constructing
a `TrainState` never errors (the constructor is a total function): position
and velocity are clamped to `≥ 0`, the length to `≥ 1` m, the acceleration
limit to `≥ 0.01`, and the brake limit is positive (`≥ 0.01` in the simple
configuration, the always-positive service-brake curve otherwise). -/
theorem construction_validation :
    (∀ (K : Type) [instK : LinearOrderedField K] (tt : String)
        (mass len : K) (bt : BrakeType) (bp : K) (ep : Bool) (ms af : K),
      (∃ e, mkTrainBrakingCharacteristics tt mass len bt bp ep ms af =
          Except.error e) ↔ (mass ≤ 0 ∨ bp < 0 ∨ 200 < bp)) ∧
    (∀ (K : Type) [instK : LinearOrderedField K] (id : ℕ)
        (pos vel len am ab : K)
        (bc : Option (TrainBrakingCharacteristics K)) (rc : RailCondition),
      0 ≤ (mkTrainState id pos vel len am ab bc rc).pos_m ∧
      0 ≤ (mkTrainState id pos vel len am ab bc rc).vel ∧
      1 ≤ (mkTrainState id pos vel len am ab bc rc).length_m ∧
      1 / 100 ≤ (mkTrainState id pos vel len am ab bc rc).a_max ∧
      0 < (mkTrainState id pos vel len am ab bc rc).a_brake) := by
  constructor
  · intro K instK tt mass len bt bp ep ms af
    rw [mkTrainBrakingCharacteristics]
    by_cases h1 : bp < 0 ∨ 200 < bp
    · rw [if_pos h1]
      exact ⟨fun _ => Or.inr h1, fun _ => ⟨_, rfl⟩⟩
    · rw [if_neg h1]
      by_cases h2 : mass ≤ 0
      · rw [if_pos h2]
        exact ⟨fun _ => Or.inl h2, fun _ => ⟨_, rfl⟩⟩
      · rw [if_neg h2]
        constructor
        · rintro ⟨e, he⟩
          exact absurd he (by simp)
        · rintro (h | h)
          · exact absurd h h2
          · exact absurd h h1
  · intro K instK id pos vel len am ab bc rc
    have hcurve : ∀ (v : K) (ch : TrainBrakingCharacteristics K),
        0 < calculate_service_brake_curve v ch rc := by
      intro v ch
      rw [calculate_service_brake_curve]
      have hmax : (0 : K) < calculate_max_deceleration ch rc 0 :=
        lt_of_lt_of_le (by norm_num) (le_max_left _ _)
      by_cases hv : (120 : K) < v
      · rw [if_pos hv]
        positivity
      · rw [if_neg hv]
        positivity
    cases bc with
    | some ch =>
      refine ⟨le_max_left _ _, le_max_left _ _, le_max_left _ _,
        le_max_left _ _, ?_⟩
      exact hcurve _ ch
    | none =>
      refine ⟨le_max_left _ _, le_max_left _ _, le_max_left _ _,
        le_max_left _ _, ?_⟩
      exact lt_of_lt_of_le (by norm_num) (le_max_left _ _)

/-- C8 witness: a mass of −1 t is rejected, a brake percentage of 250 % is
rejected, a valid profile is accepted, and a `TrainState` built from
negative position/velocity/length/limits comes out clamped. -/
theorem construction_validation_witness :
    (∃ e, mkTrainBrakingCharacteristics "teher" (-1 : ℚ) 450 BrakeType.G 65
        false 100 1 = Except.error e) ∧
    (∃ e, mkTrainBrakingCharacteristics "teher" (1200 : ℚ) 450 BrakeType.G 250
        false 100 1 = Except.error e) ∧
    ¬ (∃ e, mkTrainBrakingCharacteristics "teher" (1200 : ℚ) 450 BrakeType.G 65
        false 100 1 = Except.error e) ∧
    0 ≤ (mkTrainState 3 (-7 : ℚ) (-2) (-50) (-1) (-1) none .DRY).pos_m ∧
    0 ≤ (mkTrainState 3 (-7 : ℚ) (-2) (-50) (-1) (-1) none .DRY).vel ∧
    1 ≤ (mkTrainState 3 (-7 : ℚ) (-2) (-50) (-1) (-1) none .DRY).length_m ∧
    1 / 100 ≤ (mkTrainState 3 (-7 : ℚ) (-2) (-50) (-1) (-1) none .DRY).a_max ∧
    0 < (mkTrainState 3 (-7 : ℚ) (-2) (-50) (-1) (-1) none .DRY).a_brake := by
  refine ⟨?_, ?_, ?_, ?_⟩
  · exact (construction_validation.1 ℚ "teher" (-1) 450 BrakeType.G 65
      false 100 1).mpr (Or.inl (by norm_num))
  · exact (construction_validation.1 ℚ "teher" 1200 450 BrakeType.G 250
      false 100 1).mpr (Or.inr (Or.inr (by norm_num)))
  · intro h
    have h' := (construction_validation.1 ℚ "teher" 1200 450 BrakeType.G 65
      false 100 1).mp h
    rcases h' with h' | h' | h' <;> norm_num at h'
  · exact construction_validation.2 ℚ 3 (-7) (-2) (-50) (-1) (-1) none .DRY

/-! ## C3 — `step` update order -/

/-- C3: one `step dt v_target` with `dt > 0` from a nonnegative position
first clamps the target to `[0, speed_limit(pre-step position)]`, then moves
the velocity toward that clamped target — up by at most `a_max·dt`, down by
at most the (possibly refreshed) brake limit times `dt` — clamping it at 0,
and finally advances the position by the new velocity times `dt`, the result
lying in `[0, total_m]` (for a track of nonnegative total length). -/
theorem step_order_contract {K : Type} [LinearOrderedField K]
    (me : TrainState K) (dt v_target : K) (line : Line K)
    (hdt : 0 < dt) (hpos : 0 ≤ me.pos_m) :
    (me.step dt v_target line).vel =
      max 0
        (if me.vel < min (max 0 v_target) (line.speed_limit me.pos_m) then
          min (min (max 0 v_target) (line.speed_limit me.pos_m))
            (me.vel + me.a_max * dt)
        else
          max (min (max 0 v_target) (line.speed_limit me.pos_m))
            (me.vel - (me.step dt v_target line).a_brake * dt)) ∧
    (me.step dt v_target line).pos_m =
      min (me.pos_m + (me.step dt v_target line).vel * dt) line.total_m ∧
    (0 ≤ line.total_m →
      0 ≤ (me.step dt v_target line).pos_m ∧
      (me.step dt v_target line).pos_m ≤ line.total_m) := by
  refine ⟨rfl, rfl, ?_⟩
  intro htot
  constructor
  · apply le_min
    · have hv : 0 ≤ (me.step dt v_target line).vel := le_max_left _ _
      have : 0 ≤ (me.step dt v_target line).vel * dt :=
        mul_nonneg hv (le_of_lt hdt)
      show (0 : K) ≤ me.pos_m + (me.step dt v_target line).vel * dt
      linarith
    · exact htot
  · exact min_le_right _ _

/-- C3 witness: the demo train (5 m/s, at the origin) stepped half a second
toward 10 m/s stays inside the demo track. -/
theorem step_order_contract_witness :
    0 ≤ (demoTrain.step (1 / 2) 10 demoLine).pos_m ∧
    (demoTrain.step (1 / 2) 10 demoLine).pos_m ≤ demoLine.total_m :=
  (step_order_contract demoTrain (1 / 2) 10 demoLine (by norm_num)
      (by norm_num [demoTrain, mkTrainState])).2.2
    (by norm_num [demoLine, Line.total_m, sumLen, demoSeg1, demoSeg2])

/-! ## C9 — headway non-negativity -/

/-- C9: every headway `compute_headways` emits is `≥ 0` — each reported gap
is `max(front − (rear + train_length), 0)`, so even a raw gap smaller than
the train length is clamped to zero. -/
theorem compute_headways_nonneg {K : Type} [LinearOrderedField K]
    [DecidableEq K] (rows : List (K × K)) (train_length : K) (x : K × K)
    (hx : x ∈ compute_headways rows train_length) : 0 ≤ x.2 := by
  rw [compute_headways, List.mem_flatMap] at hx
  obtain ⟨t, -, hmem⟩ := hx
  by_cases hlen :
      (sortAsc ((rows.filter (fun r => r.1 = t)).map Prod.snd)).length ≤ 1
  · rw [if_pos hlen] at hmem
    exact absurd hmem (List.not_mem_nil x)
  · rw [if_neg hlen, List.mem_map] at hmem
    obtain ⟨pr, -, hpr⟩ := hmem
    rw [← hpr]
    exact le_max_right _ _

/-- C9 witness: two trains 50 m apart with 120 m bodies — the raw gap is
−70 m, the reported headway is the clamped 0. -/
theorem compute_headways_nonneg_witness :
    ((0 : ℚ), (0 : ℚ)) ∈ compute_headways [((0 : ℚ), (0 : ℚ)), (0, 50)] 120 ∧
    (0 : ℚ) ≤ ((0 : ℚ), (0 : ℚ)).2 := by
  have hco : compute_headways [((0 : ℚ), (0 : ℚ)), (0, 50)] 120 = [(0, 0)] := by
    norm_num [compute_headways, sortAsc, insertSorted]
  exact ⟨by rw [hco]; simp,
    compute_headways_nonneg [((0 : ℚ), (0 : ℚ)), (0, 50)] 120
      ((0 : ℚ), (0 : ℚ)) (by rw [hco]; simp)⟩

/-! ## C5 — the leader-following cap of both controllers -/

/-- C5: for either controller with reaction time `tr_s` and margin `m`, when
a leader exists and the gap `(leader.pos − leader.length) − me.pos` is below
`d_safe = v²/(2·a_brake) + v·tr + m` (the follower's brake limit at least
the code's 10⁻⁶ floor, as every constructed `TrainState` guarantees),
`desired_speed` returns `min(v_limit, sqrt(2·a_brake·max(0, gap − m −
v·tr)))` — `v_limit` the lookahead-adjusted limit — and for a moving
follower this is strictly below the follower's (and hence the equal-speed
leader's) velocity the instant the gap condition holds. -/
theorem desired_speed_leader_cap (tr_s m : ℝ) (me ld : TrainState ℝ)
    (line : Line ℝ) (ha : 1 / 1000000 ≤ me.a_brake)
    (hgap : (ld.pos_m - ld.length_m) - me.pos_m <
      me.vel ^ 2 / (2 * me.a_brake) + me.vel * tr_s + m) :
    (EtcsBaseline.desired_speed ⟨tr_s, m⟩ me (some ld) line =
        min (lookahead_vlim m me line)
          (Real.sqrt (2 * me.a_brake *
            max 0 ((ld.pos_m - ld.length_m) - me.pos_m - m - me.vel * tr_s))) ∧
      DistaAI_Simple.desired_speed ⟨tr_s, m⟩ me (some ld) line =
        min (lookahead_vlim m me line)
          (Real.sqrt (2 * me.a_brake *
            max 0 ((ld.pos_m - ld.length_m) - me.pos_m - m - me.vel * tr_s)))) ∧
    (0 < me.vel →
      EtcsBaseline.desired_speed ⟨tr_s, m⟩ me (some ld) line < me.vel ∧
      DistaAI_Simple.desired_speed ⟨tr_s, m⟩ me (some ld) line < me.vel) := by
  have hapos : (0 : ℝ) < me.a_brake := lt_of_lt_of_le (by norm_num) ha
  have hnotle : ¬ me.a_brake ≤ 0 := not_le.mpr hapos
  have hbd : braking_distance me.vel me.a_brake =
      ((me.vel * me.vel / (2 * me.a_brake) : ℝ) : WithTop ℝ) := by
    rw [braking_distance, if_neg hnotle, braking_distance_fin, max_eq_left ha]
  have hcond : (((ld.pos_m - ld.length_m) - me.pos_m : ℝ) : WithTop ℝ) <
      braking_distance me.vel me.a_brake + ((me.vel * tr_s : ℝ) : WithTop ℝ) +
        ((m : ℝ) : WithTop ℝ) := by
    rw [hbd, ← WithTop.coe_add, ← WithTop.coe_add, WithTop.coe_lt_coe]
    have : me.vel * me.vel = me.vel ^ 2 := (pow_two me.vel).symm
    rw [this]
    exact hgap
  have hvts0 : 0 ≤ 2 * me.a_brake *
      max 0 ((ld.pos_m - ld.length_m) - me.pos_m - m - me.vel * tr_s) := by
    have : (0 : ℝ) ≤ max 0 ((ld.pos_m - ld.length_m) - me.pos_m - m -
        me.vel * tr_s) := le_max_left _ _
    positivity
  have hsq : (if 0 < 2 * me.a_brake *
        max 0 ((ld.pos_m - ld.length_m) - me.pos_m - m - me.vel * tr_s) then
        Real.sqrt (2 * me.a_brake *
          max 0 ((ld.pos_m - ld.length_m) - me.pos_m - m - me.vel * tr_s))
      else 0) =
      Real.sqrt (2 * me.a_brake *
        max 0 ((ld.pos_m - ld.length_m) - me.pos_m - m - me.vel * tr_s)) := by
    by_cases hv : 0 < 2 * me.a_brake *
        max 0 ((ld.pos_m - ld.length_m) - me.pos_m - m - me.vel * tr_s)
    · rw [if_pos hv]
    · rw [if_neg hv, le_antisymm (not_lt.mp hv) hvts0, Real.sqrt_zero]
  have hetcs : EtcsBaseline.desired_speed ⟨tr_s, m⟩ me (some ld) line =
      min (lookahead_vlim m me line)
        (Real.sqrt (2 * me.a_brake *
          max 0 ((ld.pos_m - ld.length_m) - me.pos_m - m - me.vel * tr_s))) := by
    rw [EtcsBaseline.desired_speed]
    simp only [if_pos hcond, hsq]
  have hdista : DistaAI_Simple.desired_speed ⟨tr_s, m⟩ me (some ld) line =
      min (lookahead_vlim m me line)
        (Real.sqrt (2 * me.a_brake *
          max 0 ((ld.pos_m - ld.length_m) - me.pos_m - m - me.vel * tr_s))) := by
    rw [DistaAI_Simple.desired_speed]
    simp only [if_pos hcond, hsq]
  refine ⟨⟨hetcs, hdista⟩, ?_⟩
  intro hvel
  have hlt : Real.sqrt (2 * me.a_brake *
      max 0 ((ld.pos_m - ld.length_m) - me.pos_m - m - me.vel * tr_s)) <
      me.vel := by
    rw [Real.sqrt_lt' hvel]
    have hdivpos : (0 : ℝ) < me.vel ^ 2 / (2 * me.a_brake) := by positivity
    have h1 : (ld.pos_m - ld.length_m) - me.pos_m - m - me.vel * tr_s <
        me.vel ^ 2 / (2 * me.a_brake) := by linarith
    have h3 : max 0 ((ld.pos_m - ld.length_m) - me.pos_m - m - me.vel * tr_s)
        < me.vel ^ 2 / (2 * me.a_brake) := max_lt hdivpos h1
    have h4 : 2 * me.a_brake *
        max 0 ((ld.pos_m - ld.length_m) - me.pos_m - m - me.vel * tr_s) <
        2 * me.a_brake * (me.vel ^ 2 / (2 * me.a_brake)) :=
      mul_lt_mul_of_pos_left h3 (by positivity)
    have h5 : 2 * me.a_brake * (me.vel ^ 2 / (2 * me.a_brake)) = me.vel ^ 2 := by
      field_simp
    rw [h5] at h4
    exact h4
  constructor
  · rw [hetcs]
    exact lt_of_le_of_lt (min_le_right _ _) hlt
  · rw [hdista]
    exact lt_of_le_of_lt (min_le_right _ _) hlt

/-- C5 witness: the spec's scenario — trains 500 m apart (gap 380 m), both
at 72 km/h, margin 100 m, reaction 2 s, brake limit 0.7 m/s²: the gap is
below `d_safe ≈ 425.7` m and both controllers advise strictly below the
leader's 20 m/s. -/
theorem desired_speed_leader_cap_witness :
    EtcsBaseline.desired_speed ⟨2, 100⟩ follower (some leadTrain)
        scenarioLine < 20 ∧
    DistaAI_Simple.desired_speed ⟨2, 100⟩ follower (some leadTrain)
        scenarioLine < 20 := by
  have h := (desired_speed_leader_cap 2 100 follower leadTrain scenarioLine
    (by norm_num [follower]) (by norm_num [follower, leadTrain])).2
    (by norm_num [follower])
  simpa [follower] using h

/-! ## C2 — simulation finish semantics: supporting lemmas -/

/-- Splitting a list extended by one element around a distinguished cell. -/
lemma append_one_split {α : Type} (l : List α) (R : α) (xs : List α) (r : α)
    (ys : List α) (h : l ++ [R] = xs ++ r :: ys) :
    (xs = l ∧ r = R ∧ ys = []) ∨
    (∃ ys2, ys = ys2 ++ [R] ∧ l = xs ++ r :: ys2) := by
  rcases List.eq_nil_or_concat ys with hys | ⟨L, b, hys⟩
  · subst hys
    have h2 := List.append_inj' h (by simp)
    exact Or.inl ⟨h2.1.symm, by simpa using h2.2.symm, rfl⟩
  · subst hys
    have h' : l ++ [R] = (xs ++ r :: L) ++ [b] := by simpa using h
    have h2 := List.append_inj' h' (by simp)
    have hbR : b = R := by simpa using h2.2.symm
    exact Or.inr ⟨L, by rw [hbR, List.concat_eq_append], h2.1⟩

/-- Writing back the value a cell already holds leaves the list unchanged. -/
lemma set_self_of_getElem {α : Type} (l : List α) (i : ℕ) (a : α)
    (h : l[i]? = some a) : l.set i a = l := by
  induction l generalizing i with
  | nil => simp at h
  | cons x xs ih =>
    cases i with
    | zero =>
      simp only [List.getElem?_cons_zero, Option.some_inj] at h
      simp [h]
    | succ n =>
      simp only [List.getElem?_cons_succ] at h
      simp [ih n h]

/-- Two distinct cells of a list with `Nodup` image have distinct images. -/
lemma nodup_map_ne {α β : Type} (f : α → β) (l : List α)
    (hn : (l.map f).Nodup) {i j : ℕ} {a b : α} (ha : l[i]? = some a)
    (hb : l[j]? = some b) (hij : i ≠ j) : f a ≠ f b := by
  have hi : i < l.length := (List.getElem?_eq_some_iff.mp ha).1
  have hj : j < l.length := (List.getElem?_eq_some_iff.mp hb).1
  have hga : l[i] = a := by
    have h2 := List.getElem?_eq_getElem hi
    rw [ha] at h2
    exact Option.some_inj.mp h2.symm
  have hgb : l[j] = b := by
    have h2 := List.getElem?_eq_getElem hj
    rw [hb] at h2
    exact Option.some_inj.mp h2.symm
  intro hfe
  apply hij
  have hmi : i < (l.map f).length := by simpa using hi
  have hmj : j < (l.map f).length := by simpa using hj
  have heq : (l.map f)[i] = (l.map f)[j] := by
    simp [hga, hgb, hfe]
  exact (List.Nodup.getElem_inj_iff hn).mp heq

lemma procIdx_length (line : Line K)
    (ctrl : ℕ → TrainState K → Option (TrainState K) → Line K → K)
    (dt : K) (k : ℕ) (s : SimState K) (i : ℕ) :
    (procIdx line ctrl dt k s i).trains.length = s.trains.length := by
  rcases hh : s.trains[i]? with _ | st <;> simp only [procIdx, hh]
  split_ifs <;> simp

/-- Processing index `i` leaves every other cell untouched. -/
lemma procIdx_getElem_ne (line : Line K)
    (ctrl : ℕ → TrainState K → Option (TrainState K) → Line K → K)
    (dt : K) (k : ℕ) (s : SimState K) {i j : ℕ} (h : j ≠ i) :
    (procIdx line ctrl dt k s i).trains[j]? = s.trains[j]? := by
  rcases hh : s.trains[i]? with _ | st <;> simp only [procIdx, hh]
  split_ifs <;> simp [List.getElem?_set_ne (Ne.symm h)]

/-- A dead process stays dead and its train is never touched again. -/
lemma procIdx_dead (line : Line K)
    (ctrl : ℕ → TrainState K → Option (TrainState K) → Line K → K)
    (dt : K) (k : ℕ) (s : SimState K) {i0 i : ℕ} {t : TrainState K}
    (h : s.trains[i0]? = some ⟨t, false⟩) :
    (procIdx line ctrl dt k s i).trains[i0]? = some ⟨t, false⟩ := by
  by_cases hij : i0 = i
  · subst hij
    simp only [procIdx, h]
    exact h
  · rw [procIdx_getElem_ne line ctrl dt k s hij]
    exact h

lemma procIdx_log (line : Line K)
    (ctrl : ℕ → TrainState K → Option (TrainState K) → Line K → K)
    (dt : K) (k : ℕ) (s : SimState K) (i : ℕ) :
    ∃ d, (procIdx line ctrl dt k s i).log = s.log ++ d := by
  rcases hh : s.trains[i]? with _ | st <;> simp only [procIdx, hh]
  · exact ⟨[], by simp⟩
  · split_ifs
    · exact ⟨[], by simp⟩
    · exact ⟨_, rfl⟩
    · exact ⟨_, rfl⟩

lemma foldProc_length (line : Line K)
    (ctrl : ℕ → TrainState K → Option (TrainState K) → Line K → K)
    (dt : K) (k : ℕ) (is : List ℕ) :
    ∀ s : SimState K,
      ((is.foldl (procIdx line ctrl dt k) s).trains.length =
        s.trains.length) := by
  induction is with
  | nil => intro s; rfl
  | cons j rest ih =>
    intro s
    rw [List.foldl_cons, ih, procIdx_length]

lemma foldProc_dead (line : Line K)
    (ctrl : ℕ → TrainState K → Option (TrainState K) → Line K → K)
    (dt : K) (k : ℕ) (is : List ℕ) {i0 : ℕ} {t : TrainState K} :
    ∀ s : SimState K, s.trains[i0]? = some ⟨t, false⟩ →
      (is.foldl (procIdx line ctrl dt k) s).trains[i0]? = some ⟨t, false⟩ := by
  induction is with
  | nil => intro s h; exact h
  | cons j rest ih =>
    intro s h
    rw [List.foldl_cons]
    exact ih _ (procIdx_dead line ctrl dt k s h)

lemma foldProc_log (line : Line K)
    (ctrl : ℕ → TrainState K → Option (TrainState K) → Line K → K)
    (dt : K) (k : ℕ) (is : List ℕ) :
    ∀ s : SimState K,
      ∃ d, (is.foldl (procIdx line ctrl dt k) s).log = s.log ++ d := by
  induction is with
  | nil => intro s; exact ⟨[], by simp⟩
  | cons j rest ih =>
    intro s
    obtain ⟨d1, hd1⟩ := procIdx_log line ctrl dt k s j
    obtain ⟨d2, hd2⟩ := ih (procIdx line ctrl dt k s j)
    exact ⟨d1 ++ d2, by rw [List.foldl_cons, hd2, hd1, List.append_assoc]⟩

lemma foldProc_mem_log (line : Line K)
    (ctrl : ℕ → TrainState K → Option (TrainState K) → Line K → K)
    (dt : K) (k : ℕ) (is : List ℕ) (s : SimState K) {r : Rec K}
    (h : r ∈ s.log) : r ∈ (is.foldl (procIdx line ctrl dt k) s).log := by
  obtain ⟨d, hd⟩ := foldProc_log line ctrl dt k is s
  rw [hd]
  exact List.mem_append_left _ h

/-- A live train at or past `total_m − 1` gets its `finished=true` record
the tick its index is processed. -/
lemma foldProc_emits (line : Line K)
    (ctrl : ℕ → TrainState K → Option (TrainState K) → Line K → K)
    (dt : K) (k : ℕ) (is : List ℕ) {i : ℕ} {t : TrainState K} :
    ∀ s : SimState K, i ∈ is → s.trains[i]? = some ⟨t, true⟩ →
      line.total_m - 1 ≤ t.pos_m →
      (⟨k, t.id, t.pos_m, t.vel, true, none⟩ : Rec K) ∈
        (is.foldl (procIdx line ctrl dt k) s).log := by
  induction is with
  | nil => intro s h; exact absurd h (List.not_mem_nil i)
  | cons j rest ih =>
    intro s hmem halive hpos
    rw [List.foldl_cons]
    by_cases hj : j = i
    · subst hj
      have hstep : (procIdx line ctrl dt k s j).log =
          s.log ++ [⟨k, t.id, t.pos_m, t.vel, true, none⟩] := by
        simp only [procIdx, halive]
        rw [if_neg (by simp), if_pos hpos]
      apply foldProc_mem_log
      rw [hstep]
      simp
    · have hmem' : i ∈ rest := by
        rcases List.mem_cons.mp hmem with h | h
        · exact absurd h.symm hj
        · exact h
      apply ih _ hmem'
      · rw [procIdx_getElem_ne line ctrl dt k s (fun hh => hj hh.symm)]
        exact halive
      · exact hpos

/-- `step` keeps the train's identity. -/
lemma step_id (me : TrainState K) (dt v_target : K) (line : Line K) :
    (me.step dt v_target line).id = me.id := rfl

lemma procIdx_inv (line : Line K)
    (ctrl : ℕ → TrainState K → Option (TrainState K) → Line K → K)
    (dt : K) (k : ℕ) (s : SimState K) (i : ℕ) (hinv : SimInv s) :
    SimInv (procIdx line ctrl dt k s i) := by
  obtain ⟨hnd, hP1, hP2, hP3⟩ := hinv
  rcases hh : s.trains[i]? with _ | st
  · simp only [procIdx, hh]
    exact ⟨hnd, hP1, hP2, hP3⟩
  · by_cases halive : st.alive = false
    · simp only [procIdx, hh, if_pos halive]
      exact ⟨hnd, hP1, hP2, hP3⟩
    · have halive' : st.alive = true := by
        revert halive; cases st.alive <;> simp
      have hilen : i < s.trains.length := (List.getElem?_eq_some_iff.mp hh).1
      have hfin_ne : ∀ r ∈ s.log, r.finished = true → st.train.id ≠ r.id := by
        intro r hr hrf
        obtain ⟨i2, st2, h2, hdead2, hid2⟩ := hP3 r hr hrf
        have hne : i ≠ i2 := by
          intro he
          rw [← he, hh] at h2
          have hst : st = st2 := Option.some_inj.mp h2
          rw [← hst] at hdead2
          rw [halive'] at hdead2
          exact Bool.noConfusion hdead2
        rw [← hid2]
        exact nodup_map_ne _ _ hnd hh h2 hne
      have hmap : ∀ u : SimTrain K, u.train.id = st.train.id →
          ((s.trains.set i u).map (fun w => w.train.id)).Nodup := by
        intro u hu
        rw [List.map_set,
          set_self_of_getElem _ _ _ (by simp [List.getElem?_map, hh, hu])]
        exact hnd
      by_cases hfin : line.total_m - 1 ≤ st.train.pos_m
      · simp only [procIdx, hh, if_neg halive, if_pos hfin]
        refine ⟨hmap _ rfl, ?_, ?_, ?_⟩
        · intro xs r ys hsplit hrf r2 hr2
          rcases append_one_split _ _ _ _ _ hsplit with
            ⟨hxs, hrR, hys⟩ | ⟨ys2, hys, hlog⟩
          · subst hys
            exact absurd hr2 (List.not_mem_nil r2)
          · have hrold : r ∈ s.log := by
              rw [hlog]
              exact List.mem_append_right _ (List.mem_cons_self r ys2)
            subst hys
            rcases List.mem_append.mp hr2 with h2 | h2
            · exact hP1 xs r ys2 hlog hrf r2 h2
            · have hr2R : r2 =
                  ⟨k, st.train.id, st.train.pos_m, st.train.vel, true, none⟩ := by
                simpa using h2
              rw [hr2R]
              exact hfin_ne r hrold hrf
        · intro i0 st0 h0 h0alive r hr hid
          by_cases hi0 : i0 = i
          · subst hi0
            simp only [List.getElem?_set, hilen, if_pos rfl, if_true] at h0
            have : st0 = ⟨st.train, false⟩ := by
              cases h0.symm; rfl
            rw [this] at h0alive
            exact Bool.noConfusion h0alive
          · rw [List.getElem?_set_ne (Ne.symm hi0)] at h0
            rcases List.mem_append.mp hr with h2 | h2
            · exact hP2 i0 st0 h0 h0alive r h2 hid
            · have hrR : r =
                  ⟨k, st.train.id, st.train.pos_m, st.train.vel, true, none⟩ := by
                simpa using h2
              have hne := nodup_map_ne _ _ hnd h0 hh hi0
              rw [hrR] at hid
              exact absurd hid.symm hne
        · intro r hr hrf
          rcases List.mem_append.mp hr with h2 | h2
          · obtain ⟨i2, st2, hg2, hd2, hid2⟩ := hP3 r h2 hrf
            have hne : i2 ≠ i := by
              intro he
              rw [he, hh] at hg2
              have hst : st = st2 := Option.some_inj.mp hg2
              rw [← hst, halive'] at hd2
              exact Bool.noConfusion hd2
            exact ⟨i2, st2, by
              rw [List.getElem?_set_ne (Ne.symm hne)]
              exact hg2, hd2, hid2⟩
          · have hrR : r =
                ⟨k, st.train.id, st.train.pos_m, st.train.vel, true, none⟩ := by
              simpa using h2
            refine ⟨i, ⟨st.train, false⟩, ?_, rfl, ?_⟩
            · simp [List.getElem?_set, hilen]
            · rw [hrR]
      · simp only [procIdx, hh, if_neg halive, if_neg hfin]
        refine ⟨hmap _ rfl, ?_, ?_, ?_⟩
        · intro xs r ys hsplit hrf r2 hr2
          rcases append_one_split _ _ _ _ _ hsplit with
            ⟨hxs, hrR, hys⟩ | ⟨ys2, hys, hlog⟩
          · rw [hrR] at hrf
            exact Bool.noConfusion hrf
          · have hrold : r ∈ s.log := by
              rw [hlog]
              exact List.mem_append_right _ (List.mem_cons_self r ys2)
            subst hys
            rcases List.mem_append.mp hr2 with h2 | h2
            · exact hP1 xs r ys2 hlog hrf r2 h2
            · have hr2R := List.mem_singleton.mp h2
              rw [hr2R]
              exact hfin_ne r hrold hrf
        · intro i0 st0 h0 h0alive r hr hid
          by_cases hi0 : i0 = i
          · subst hi0
            simp only [List.getElem?_set, hilen, if_pos rfl, if_true] at h0
            have hst0 : st0 = ⟨st.train.step dt
                (ctrl st.train.id st.train
                  (findLeader (s.trains.map SimTrain.train) st.train) line)
                line, true⟩ := by
              cases h0.symm; rfl
            rcases List.mem_append.mp hr with h2 | h2
            · apply hP2 i0 st hh halive' r h2
              rw [hid, hst0]
              rfl
            · have hrR := List.mem_singleton.mp h2
              rw [hrR]
          · rw [List.getElem?_set_ne (Ne.symm hi0)] at h0
            rcases List.mem_append.mp hr with h2 | h2
            · exact hP2 i0 st0 h0 h0alive r h2 hid
            · have hrR := List.mem_singleton.mp h2
              have hne := nodup_map_ne _ _ hnd h0 hh hi0
              rw [hrR] at hid
              exact absurd hid.symm hne
        · intro r hr hrf
          rcases List.mem_append.mp hr with h2 | h2
          · obtain ⟨i2, st2, hg2, hd2, hid2⟩ := hP3 r h2 hrf
            have hne : i2 ≠ i := by
              intro he
              rw [he, hh] at hg2
              have hst : st = st2 := Option.some_inj.mp hg2
              rw [← hst, halive'] at hd2
              exact Bool.noConfusion hd2
            exact ⟨i2, st2, by
              rw [List.getElem?_set_ne (Ne.symm hne)]
              exact hg2, hd2, hid2⟩
          · have hrR := List.mem_singleton.mp h2
            rw [hrR] at hrf
            exact Bool.noConfusion hrf


lemma foldProc_inv (line : Line K)
    (ctrl : ℕ → TrainState K → Option (TrainState K) → Line K → K)
    (dt : K) (k : ℕ) (is : List ℕ) :
    ∀ s : SimState K, SimInv s →
      SimInv (is.foldl (procIdx line ctrl dt k) s) := by
  induction is with
  | nil => intro s h; exact h
  | cons j rest ih =>
    intro s h
    rw [List.foldl_cons]
    exact ih _ (procIdx_inv line ctrl dt k s j h)

lemma afterTicks_inv (line : Line K)
    (ctrl : ℕ → TrainState K → Option (TrainState K) → Line K → K)
    (dt : K) (trains : List (TrainState K))
    (hnd : (trains.map TrainState.id).Nodup) (N : ℕ) :
    SimInv (afterTicks line ctrl dt trains N) := by
  induction N with
  | zero =>
    refine ⟨?_, ?_, ?_, ?_⟩
    · show ((trains.map fun t => (⟨t, true⟩ : SimTrain K)).map
        (fun u => u.train.id)).Nodup
      rw [List.map_map]
      exact hnd
    · intro xs r ys hsplit
      have hlenc := congrArg List.length hsplit
      simp [afterTicks, List.length_append] at hlenc
      omega
    · intro i st hst halive r hr
      exact absurd hr (List.not_mem_nil r)
    · intro r hr
      exact absurd hr (List.not_mem_nil r)
  | succ n ih =>
    exact foldProc_inv line ctrl dt n _ _ ih

lemma afterTicks_length (line : Line K)
    (ctrl : ℕ → TrainState K → Option (TrainState K) → Line K → K)
    (dt : K) (trains : List (TrainState K)) (N : ℕ) :
    (afterTicks line ctrl dt trains N).trains.length = trains.length := by
  induction N with
  | zero => simp [afterTicks]
  | succ n ih =>
    show ((List.range (afterTicks line ctrl dt trains n).trains.length).foldl
      (procIdx line ctrl dt n) (afterTicks line ctrl dt trains n)).trains.length
      = trains.length
    rw [foldProc_length]
    exact ih

lemma afterTicks_dead (line : Line K)
    (ctrl : ℕ → TrainState K → Option (TrainState K) → Line K → K)
    (dt : K) (trains : List (TrainState K)) {n i : ℕ} {t : TrainState K}
    (h : (afterTicks line ctrl dt trains n).trains[i]? = some ⟨t, false⟩) :
    ∀ j : ℕ,
      (afterTicks line ctrl dt trains (n + j)).trains[i]? = some ⟨t, false⟩ := by
  intro j
  induction j with
  | zero => exact h
  | succ m ih =>
    show (tick line ctrl dt (n + m)
      (afterTicks line ctrl dt trains (n + m))).trains[i]? = some ⟨t, false⟩
    exact foldProc_dead line ctrl dt (n + m) _ _ ih

lemma afterTicks_log_mono (line : Line K)
    (ctrl : ℕ → TrainState K → Option (TrainState K) → Line K → K)
    (dt : K) (trains : List (TrainState K)) (n : ℕ) :
    ∀ j : ℕ, ∃ d, (afterTicks line ctrl dt trains (n + j)).log =
      (afterTicks line ctrl dt trains n).log ++ d := by
  intro j
  induction j with
  | zero => exact ⟨[], by simp⟩
  | succ m ih =>
    obtain ⟨d1, hd1⟩ := ih
    obtain ⟨d2, hd2⟩ := foldProc_log line ctrl dt (n + m)
      (List.range (afterTicks line ctrl dt trains (n + m)).trains.length)
      (afterTicks line ctrl dt trains (n + m))
    refine ⟨d1 ++ d2, ?_⟩
    show (tick line ctrl dt (n + m)
      (afterTicks line ctrl dt trains (n + m))).log = _
    rw [tick, hd2, hd1, List.append_assoc]

/-! ## C2 — the amended finish-semantics theorem -/

/-- C2 (amended): in every run with distinct train ids,
(a) a `finished=true` record is the **last** record of its train: no later
record — `finished=false` or otherwise — carries that id (so at most one
`finished=true` record per train is ever emitted);
(b) once a train's process is dead its whole state, position included, is
frozen for the rest of the run;
(c) a live train at or past `total_m − 1` m gets exactly its one
`finished=true` record at the next executed tick (in particular none is
emitted when the horizon ends first).  The original claim's further clause
— that a finished train is never selected as a leader afterwards — is
**false**: the leader search ranges over all trains, finished ones
included (see the counterexample). -/
theorem run_sim_finish_contract {K : Type} [LinearOrderedField K]
    (line : Line K)
    (ctrl : ℕ → TrainState K → Option (TrainState K) → Line K → K)
    (dt : K) (trains : List (TrainState K)) (N : ℕ)
    (hnd : (trains.map TrainState.id).Nodup) :
    (∀ xs (r : Rec K) ys, run_sim line ctrl dt trains N = xs ++ r :: ys →
      r.finished = true → ∀ r2 ∈ ys, r2.id ≠ r.id) ∧
    (∀ n j i : ℕ, ∀ t : TrainState K,
      (afterTicks line ctrl dt trains n).trains[i]? = some ⟨t, false⟩ →
      (afterTicks line ctrl dt trains (n + j)).trains[i]? =
        some ⟨t, false⟩) ∧
    (∀ k i : ℕ, ∀ t : TrainState K, k < N →
      (afterTicks line ctrl dt trains k).trains[i]? = some ⟨t, true⟩ →
      line.total_m - 1 ≤ t.pos_m →
      (⟨k, t.id, t.pos_m, t.vel, true, none⟩ : Rec K) ∈
        run_sim line ctrl dt trains N) := by
  refine ⟨?_, ?_, ?_⟩
  · intro xs r ys hsplit hrf
    exact (afterTicks_inv line ctrl dt trains hnd N).2.1 xs r ys hsplit hrf
  · intro n j i t h
    exact afterTicks_dead line ctrl dt trains h j
  · intro k i t hk halive hpos
    have hi : i < (afterTicks line ctrl dt trains k).trains.length :=
      (List.getElem?_eq_some_iff.mp halive).1
    have hstep : (⟨k, t.id, t.pos_m, t.vel, true, none⟩ : Rec K) ∈
        (afterTicks line ctrl dt trains (k + 1)).log := by
      show _ ∈ (tick line ctrl dt k (afterTicks line ctrl dt trains k)).log
      exact foldProc_emits line ctrl dt k _ _ (List.mem_range.mpr hi)
        halive hpos
    obtain ⟨j, hj⟩ := Nat.exists_eq_add_of_le hk
    obtain ⟨d, hd⟩ := afterTicks_log_mono line ctrl dt trains (k + 1) j
    rw [run_sim, hj]
    rw [show k + 1 + j = k + 1 + j from rfl] at hd
    rw [hd]
    exact List.mem_append_left _ hstep

/-- C2 witness: clause (c) at a concrete one-train, one-tick run — the
train past `total_m − 1` gets its `finished=true` record. -/
theorem run_sim_finish_contract_witness :
    (⟨0, 7, 1999 / 2, 0, true, none⟩ : Rec ℚ) ∈
      run_sim wLine (fun _ _ _ _ => 0) (1 / 2) [wTrain] 1 := by
  exact (run_sim_finish_contract wLine (fun _ _ _ _ => 0) (1 / 2) [wTrain] 1
    (by simp)).2.2 0 0 wTrain (by norm_num) rfl
    (by norm_num [wLine, Line.total_m, sumLen, wTrain])



/-- C2 counterexample: a two-train run of `run_sim` driven by the baseline
controller (dt = 0.5 s, horizon 2 ticks, i.e. `T = 1 s`), train 0 starting
999.5 m down the 1 000 m track and train 1 at 993 m doing 10 m/s.  The
computed trace refutes two clauses of the claim: train 0's `finished=true`
record is emitted at tick 0, yet train 1's record at the **later** tick 1
still carries `leader = some 0` — the finished train is selected as leader
on a subsequent tick; and train 1's position reaches
`total_m − 1 = 999` m (it ends at 1 000 m) but the run emits **no**
`finished=true` record for it, because no further tick executes. -/
theorem run_sim_finish_cex :
    run_sim ceLine ceCtrl (1 / 2) [ceTrainA, ceTrainC] 2 =
      [⟨0, 0, 1999 / 2, 0, true, none⟩,
       ⟨0, 1, 39913 / 40, 193 / 20, false, some 0⟩,
       ⟨1, 1, 1000, 93 / 10, false, some 0⟩] ∧
    (∃ r ∈ run_sim ceLine ceCtrl (1 / 2) [ceTrainA, ceTrainC] 2,
      r.finished = true ∧ r.id = 0 ∧ r.k = 0) ∧
    (∃ r ∈ run_sim ceLine ceCtrl (1 / 2) [ceTrainA, ceTrainC] 2,
      r.id = 1 ∧ 0 < r.k ∧ r.leader = some 0) ∧
    (∀ r ∈ run_sim ceLine ceCtrl (1 / 2) [ceTrainA, ceTrainC] 2,
      r.id = 1 → r.finished = false) ∧
    (∃ r ∈ run_sim ceLine ceCtrl (1 / 2) [ceTrainA, ceTrainC] 2,
      r.id = 1 ∧ ceLine.total_m - 1 ≤ r.pos_m) := by
  have key : run_sim ceLine ceCtrl (1 / 2) [ceTrainA, ceTrainC] 2 =
      [⟨0, 0, 1999 / 2, 0, true, none⟩,
       ⟨0, 1, 39913 / 40, 193 / 20, false, some 0⟩,
       ⟨1, 1, 1000, 93 / 10, false, some 0⟩] := by
      have hlead : findLeader [ceTrainA, ceTrainC] ceTrainC = some ceTrainA := by
        norm_num [findLeader, pickMinPos, ceTrainA, ceTrainC, List.filter]
      have hdes : EtcsBaseline.desired_speed (mkEtcsBaseline 2 150) ceTrainC
          (some ceTrainA) ceLine = 0 := by
        norm_num [EtcsBaseline.desired_speed, mkEtcsBaseline,
          lookahead_vlim, Line.next_speed_change, nscFind, nscScan,
          Line.speed_limit, speedScan, braking_distance, braking_distance_fin,
          ceLine, ceTrainA, ceTrainC, max_def, min_def,
          ← WithTop.coe_add, WithTop.coe_lt_coe]
        rw [show ((20 : WithTop ℝ)) = ((20 : ℝ) : WithTop ℝ) from rfl,
          show ((150 : WithTop ℝ)) = ((150 : ℝ) : WithTop ℝ) from rfl,
          ← WithTop.LinearOrderedAddCommGroup.coe_neg, ← WithTop.coe_add,
          ← WithTop.coe_add, WithTop.coe_lt_coe]
        norm_num
      have hstep : TrainState.step ceTrainC (1 / 2) 0 ceLine =
          ⟨1, 39913 / 40, 193 / 20, 120, 7 / 10, 7 / 10, false, none, .DRY⟩ := by
        norm_num [TrainState.step, ceTrainC, Line.speed_limit, speedScan, ceLine,
          Line.total_m, sumLen, max_def, min_def]
      have h1 : procIdx ceLine ceCtrl (1 / 2) 0
          ⟨[⟨ceTrainA, true⟩, ⟨ceTrainC, true⟩], []⟩ 0 =
          ⟨[⟨ceTrainA, false⟩, ⟨ceTrainC, true⟩],
            [⟨0, 0, 1999 / 2, 0, true, none⟩]⟩ := by
        simp only [procIdx, List.getElem?_cons_zero]
        rw [if_neg (by simp),
          if_pos (by norm_num [ceLine, Line.total_m, sumLen, ceTrainA])]
        simp [ceTrainA]
      have h2 : procIdx ceLine ceCtrl (1 / 2) 0
          ⟨[⟨ceTrainA, false⟩, ⟨ceTrainC, true⟩],
            [⟨0, 0, 1999 / 2, 0, true, none⟩]⟩ 1 =
          ⟨[⟨ceTrainA, false⟩,
            ⟨⟨1, 39913 / 40, 193 / 20, 120, 7 / 10, 7 / 10, false, none, .DRY⟩,
              true⟩],
            [⟨0, 0, 1999 / 2, 0, true, none⟩,
             ⟨0, 1, 39913 / 40, 193 / 20, false, some 0⟩]⟩ := by
        simp only [procIdx, List.getElem?_cons_succ, List.getElem?_cons_zero]
        rw [if_neg (by simp),
          if_neg (by norm_num [ceLine, Line.total_m, sumLen, ceTrainC])]
        simp only [List.map_cons, List.map_nil]
        rw [hlead]
        simp only [ceCtrl]
        rw [hdes, hstep]
        simp [ceTrainA]
      have hlead2 : findLeader
          [ceTrainA, ⟨1, 39913 / 40, 193 / 20, 120, 7 / 10, 7 / 10, false, none,
            .DRY⟩]
          ⟨1, 39913 / 40, 193 / 20, 120, 7 / 10, 7 / 10, false, none, .DRY⟩ =
          some ceTrainA := by
        norm_num [findLeader, pickMinPos, ceTrainA, List.filter]
      have hdes2 : EtcsBaseline.desired_speed (mkEtcsBaseline 2 150)
          ⟨1, 39913 / 40, 193 / 20, 120, 7 / 10, 7 / 10, false, none, .DRY⟩
          (some ceTrainA) ceLine = 0 := by
        norm_num [EtcsBaseline.desired_speed, mkEtcsBaseline,
          lookahead_vlim, Line.next_speed_change, nscFind, nscScan,
          Line.speed_limit, speedScan, braking_distance, braking_distance_fin,
          ceLine, ceTrainA, max_def, min_def,
          ← WithTop.coe_add, WithTop.coe_lt_coe]
        rw [show ((150 : WithTop ℝ)) = ((150 : ℝ) : WithTop ℝ) from rfl,
          ← WithTop.LinearOrderedAddCommGroup.coe_neg, ← WithTop.coe_add,
          WithTop.coe_lt_coe]
        norm_num
      have hstep2 : TrainState.step
          ⟨1, 39913 / 40, 193 / 20, 120, 7 / 10, 7 / 10, false, none, .DRY⟩
          (1 / 2) 0 ceLine =
          ⟨1, 1000, 93 / 10, 120, 7 / 10, 7 / 10, false, none, .DRY⟩ := by
        norm_num [TrainState.step, Line.speed_limit, speedScan, ceLine,
          Line.total_m, sumLen, max_def, min_def]
      have h3 : procIdx ceLine ceCtrl (1 / 2) 1
          ⟨[⟨ceTrainA, false⟩,
            ⟨⟨1, 39913 / 40, 193 / 20, 120, 7 / 10, 7 / 10, false, none, .DRY⟩,
              true⟩],
            [⟨0, 0, 1999 / 2, 0, true, none⟩,
             ⟨0, 1, 39913 / 40, 193 / 20, false, some 0⟩]⟩ 0 =
          ⟨[⟨ceTrainA, false⟩,
            ⟨⟨1, 39913 / 40, 193 / 20, 120, 7 / 10, 7 / 10, false, none, .DRY⟩,
              true⟩],
            [⟨0, 0, 1999 / 2, 0, true, none⟩,
             ⟨0, 1, 39913 / 40, 193 / 20, false, some 0⟩]⟩ := by
        simp [procIdx]
      have h4 : procIdx ceLine ceCtrl (1 / 2) 1
          ⟨[⟨ceTrainA, false⟩,
            ⟨⟨1, 39913 / 40, 193 / 20, 120, 7 / 10, 7 / 10, false, none, .DRY⟩,
              true⟩],
            [⟨0, 0, 1999 / 2, 0, true, none⟩,
             ⟨0, 1, 39913 / 40, 193 / 20, false, some 0⟩]⟩ 1 =
          ⟨[⟨ceTrainA, false⟩,
            ⟨⟨1, 1000, 93 / 10, 120, 7 / 10, 7 / 10, false, none, .DRY⟩, true⟩],
            [⟨0, 0, 1999 / 2, 0, true, none⟩,
             ⟨0, 1, 39913 / 40, 193 / 20, false, some 0⟩,
             ⟨1, 1, 1000, 93 / 10, false, some 0⟩]⟩ := by
        simp only [procIdx, List.getElem?_cons_succ, List.getElem?_cons_zero]
        rw [if_neg (by simp),
          if_neg (by norm_num [ceLine, Line.total_m, sumLen])]
        simp only [List.map_cons, List.map_nil]
        rw [hlead2]
        simp only [ceCtrl]
        rw [hdes2, hstep2]
        simp [ceTrainA]
      have t0 : tick ceLine ceCtrl (1 / 2) 0
          ⟨[⟨ceTrainA, true⟩, ⟨ceTrainC, true⟩], []⟩ =
          ⟨[⟨ceTrainA, false⟩,
            ⟨⟨1, 39913 / 40, 193 / 20, 120, 7 / 10, 7 / 10, false, none, .DRY⟩,
              true⟩],
            [⟨0, 0, 1999 / 2, 0, true, none⟩,
             ⟨0, 1, 39913 / 40, 193 / 20, false, some 0⟩]⟩ := by
        rw [tick]
        rw [show ((⟨[⟨ceTrainA, true⟩, ⟨ceTrainC, true⟩], []⟩ :
            SimState ℝ)).trains.length = 2 from rfl]
        rw [show List.range 2 = [0, 1] from by decide]
        rw [List.foldl_cons, h1, List.foldl_cons, h2, List.foldl_nil]
      have t1 : tick ceLine ceCtrl (1 / 2) 1
          ⟨[⟨ceTrainA, false⟩,
            ⟨⟨1, 39913 / 40, 193 / 20, 120, 7 / 10, 7 / 10, false, none, .DRY⟩,
              true⟩],
            [⟨0, 0, 1999 / 2, 0, true, none⟩,
             ⟨0, 1, 39913 / 40, 193 / 20, false, some 0⟩]⟩ =
          ⟨[⟨ceTrainA, false⟩,
            ⟨⟨1, 1000, 93 / 10, 120, 7 / 10, 7 / 10, false, none, .DRY⟩, true⟩],
            [⟨0, 0, 1999 / 2, 0, true, none⟩,
             ⟨0, 1, 39913 / 40, 193 / 20, false, some 0⟩,
             ⟨1, 1, 1000, 93 / 10, false, some 0⟩]⟩ := by
        rw [tick]
        rw [show ((⟨[⟨ceTrainA, false⟩,
            ⟨⟨1, 39913 / 40, 193 / 20, 120, 7 / 10, 7 / 10, false, none, .DRY⟩,
              true⟩],
            [⟨0, 0, 1999 / 2, 0, true, none⟩,
             ⟨0, 1, 39913 / 40, 193 / 20, false, some 0⟩]⟩ :
            SimState ℝ)).trains.length = 2 from rfl]
        rw [show List.range 2 = [0, 1] from by decide]
        rw [List.foldl_cons, h3, List.foldl_cons, h4, List.foldl_nil]
      have hfinal : afterTicks ceLine ceCtrl (1 / 2) [ceTrainA, ceTrainC] 2 =
          ⟨[⟨ceTrainA, false⟩,
            ⟨⟨1, 1000, 93 / 10, 120, 7 / 10, 7 / 10, false, none, .DRY⟩, true⟩],
            [⟨0, 0, 1999 / 2, 0, true, none⟩,
             ⟨0, 1, 39913 / 40, 193 / 20, false, some 0⟩,
             ⟨1, 1, 1000, 93 / 10, false, some 0⟩]⟩ := by
        show tick ceLine ceCtrl (1 / 2) 1 (tick ceLine ceCtrl (1 / 2) 0
          (afterTicks ceLine ceCtrl (1 / 2) [ceTrainA, ceTrainC] 0)) = _
        rw [show afterTicks ceLine ceCtrl (1 / 2) [ceTrainA, ceTrainC] 0 =
          ⟨[⟨ceTrainA, true⟩, ⟨ceTrainC, true⟩], []⟩ from rfl]
        rw [t0, t1]
      rw [run_sim, hfinal]
  refine ⟨key, ?_, ?_, ?_, ?_⟩
  · rw [key]
    exact ⟨⟨0, 0, 1999 / 2, 0, true, none⟩, by simp, rfl, rfl, rfl⟩
  · rw [key]
    exact ⟨⟨1, 1, 1000, 93 / 10, false, some 0⟩, by simp, rfl, by norm_num,
      rfl⟩
  · rw [key]
    intro r hr hid
    rcases List.mem_cons.mp hr with rfl | hr
    · simp at hid
    rcases List.mem_cons.mp hr with rfl | hr
    · rfl
    rcases List.mem_cons.mp hr with rfl | hr
    · rfl
    exact absurd hr (List.not_mem_nil r)
  · rw [key]
    exact ⟨⟨1, 1, 1000, 93 / 10, false, some 0⟩, by simp, rfl,
      by norm_num [ceLine, Line.total_m, sumLen]⟩


end DistaFlow
